import Mathlib

/-
Verification of the schema-sharded log-ingestion pipeline
(reload_operations_log.py): line parsing, value normalization,
severity extraction, schema classification, shard/manifest writing,
and the dual DuckDB/MotherDuck sync orchestration.

Python floats are modelled as exact decimal rationals: the program only
parses decimal literals and re-serializes them, never computes with them.
Python str.isdigit and whitespace are modelled over the ASCII range.
-/

namespace ReloadOps

/-- Values stored in a parsed record: Python str, int or float. -/
inductive Value where
  | vStr (s : String)
  | vInt (n : Int)
  | vFloat (q : ℚ)
deriving DecidableEq

/-- A record is an insertion-ordered mapping from field name to value,
modelled as an association list with (by construction) unique keys. -/
abbrev Record := List (String × Value)

/-- ASCII whitespace as recognized by Python str.split / str.strip / regex \s. -/
def pyWsChar (c : Char) : Bool :=
  c = ' ' || c = '\t' || c = '\n' || c = '\r' || c = '\x0b' || c = '\x0c'

/-- Python str.strip on a character list. -/
def pyStripChars (cs : List Char) : List Char :=
  ((cs.dropWhile pyWsChar).reverse.dropWhile pyWsChar).reverse

/-- Python str.split() with no argument: split on whitespace runs,
dropping leading/trailing whitespace (source line 89: line.strip().split());
splitting at every whitespace character and discarding the empty segments
produced by runs and by leading/trailing whitespace is the same thing. -/
def pySplitChars (cs : List Char) : List (List Char) :=
  (cs.splitOnP pyWsChar).filter (fun l => !l.isEmpty)

def pySplit (s : String) : List String :=
  (pySplitChars s.toList).map (fun cs => String.mk cs)

/-- Python value.replace(".", "", 1): remove the first dot only. -/
def removeFirstDot : List Char → List Char
  | [] => []
  | c :: cs => if c = '.' then cs else c :: removeFirstDot cs

/-- Python str.isdigit (ASCII digits): nonempty and all digits. -/
def pyIsDigit (cs : List Char) : Bool := !cs.isEmpty && cs.all Char.isDigit

/-- Decimal digit string to Nat, as Python int() on digit strings. -/
def digitsToNat (cs : List Char) : Nat :=
  cs.foldl (fun acc c => acc * 10 + (c.toNat - '0'.toNat)) 0

/-- Python float() on a digit string with one optional dot,
as the exact decimal rational. -/
def floatOfChars (cs : List Char) : ℚ :=
  let ip := cs.takeWhile (fun c => c ≠ '.')
  let fp := (cs.dropWhile (fun c => c ≠ '.')).drop 1
  (digitsToNat ip : ℚ) + (digitsToNat fp : ℚ) / ((10 : ℚ) ^ fp.length)

/-- Source lines 76-85, normalize_value: strip whitespace, strip one pair of
surrounding double quotes, then coerce digit strings to int and
one-dot digit strings to float, else keep the string.
(The try/except around int()/float() in the source is unreachable for the
ASCII digit strings accepted by this isdigit test.) -/
def normalize_value (raw : String) : Value :=
  let v1 := pyStripChars raw.toList
  let v := if v1.head? = some '"' ∧ v1.getLast? = some '"'
    then (v1.drop 1).dropLast else v1
  if pyIsDigit (removeFirstDot v) ∧ v.count '.' ≤ 1 then
    if v.contains '.' then Value.vFloat (floatOfChars v)
    else Value.vInt (digitsToNat v)
  else Value.vStr (String.mk v)

/-- OrderedDict assignment d[k] = v: update in place if the key is present
(keeping its position), else append at the end. -/
def odSet {α : Type} : List (String × α) → String → α → List (String × α)
  | [], k, v => [(k, v)]
  | (k', v') :: rest, k, v =>
    if k' = k then (k', v) :: rest else (k', v') :: odSet rest k v

/-- OrderedDict in-place value modification d[k] = f d[k] (the key is
guaranteed present at every call site in the source). -/
def odModify {α : Type} : List (String × α) → String → (α → α) → List (String × α)
  | [], _, _ => []
  | (k', v') :: rest, k, f =>
    if k' = k then (k', f v') :: rest else (k', v') :: odModify rest k f

/-- Ordered-mapping lookup d.get(k). -/
def odLookup {α : Type} : List (String × α) → String → Option α
  | [], _ => none
  | (k', v') :: rest, k => if k' = k then some v' else odLookup rest k

/-- Python "=" in token. -/
def hasEqSign (tok : String) : Bool := tok.toList.contains '='

/-- Key of token.split("=", 1): the characters before the first '='. -/
def eqKey (tok : String) : String := String.mk (tok.toList.takeWhile (fun c => c ≠ '='))

/-- Value of token.split("=", 1): the characters after the first '='. -/
def eqVal (tok : String) : String :=
  String.mk ((tok.toList.dropWhile (fun c => c ≠ '=')).drop 1)

/-- State of the payload-token scan: the payload built so far and the
pending ("current") key, None before any key=value token. -/
structure ScanSt where
  payload : List (String × String)
  currentKey : Option String
deriving DecidableEq

/-- Source lines 102-108: one step of the payload scan. A token with '='
starts a field (split on the first '=') and becomes the pending key; a
token without '=' is appended (space-separated) to the pending key's value
when that key is truthy (Python: non-None AND nonempty), else dropped. -/
def scanStep (st : ScanSt) (tok : String) : ScanSt :=
  if hasEqSign tok then
    ⟨odSet st.payload (eqKey tok) (eqVal tok), some (eqKey tok)⟩
  else
    match st.currentKey with
    | some ck =>
      if ck ≠ "" then ⟨odModify st.payload ck (fun v => v ++ " " ++ tok), some ck⟩
      else st
    | none => st

/-- The full left-to-right payload scan of the tail tokens. -/
def scanPayload (toks : List String) : ScanSt := toks.foldl scanStep ⟨[], none⟩

/-- The literal prefix of the severity regex r"\(severity:\s*([^)]+)\)". -/
def sevLit : List Char := "(severity:".toList

/-- Match the severity regex at the head of cs. Returns (group 1, rest after
the match). Mirrors re backtracking: \s* greedily takes whitespace but gives
back characters so that the mandatory nonempty group can match. -/
def matchSevAt (cs : List Char) : Option (List Char × List Char) :=
  if sevLit.isPrefixOf cs then
    let rest := cs.drop sevLit.length
    let r := rest.takeWhile (fun c => c ≠ ')')
    if r.length = 0 ∨ r.length = rest.length then none
    else
      let ws := (r.takeWhile pyWsChar).length
      some (r.drop (min ws (r.length - 1)), rest.drop (r.length + 1))
  else none

/-- re.search: the group of the first match of the severity pattern, if any. -/
def findSev : List Char → Option (List Char)
  | [] => none
  | c :: cs =>
    match matchSevAt (c :: cs) with
    | some (g, _) => some g
    | none => findSev cs

/-- re.sub helper, with fuel (one unit per character consumed, so the input
length is always enough fuel). -/
def removeSevAux : Nat → List Char → List Char
  | 0, cs => cs
  | _ + 1, [] => []
  | fuel + 1, c :: cs =>
    match matchSevAt (c :: cs) with
    | some (_, rem) => removeSevAux fuel rem
    | none => c :: removeSevAux fuel cs

/-- re.sub(pattern, "", s): delete every non-overlapping match, left to right. -/
def removeSevAll (cs : List Char) : List Char := removeSevAux cs.length cs

/-- Source lines 126-129: the rewritten issue value. re.sub deletes every
annotation, then strip; a trailing period is removed with the whitespace
before it (rstrip); a final strip. -/
def cleanIssue (issue : String) : String :=
  let cleaned1 := pyStripChars (removeSevAll issue.toList)
  let cleaned2 :=
    if cleaned1.getLast? = some '.'
    then (cleaned1.dropLast.reverse.dropWhile pyWsChar).reverse
    else cleaned1
  String.mk (pyStripChars cleaned2)

/-- Source lines 121-129: severity post-processing of a parsed record.
When the issue field is a string with a severity annotation, the trimmed
group is assigned to key "severity" (appended at the end when new), and
issue is rewritten with all annotations removed, stripped, with a trailing
period (and whitespace before it) removed. -/
def applySeverity (record : Record) : Record :=
  match odLookup record "issue" with
  | some (Value.vStr issue) =>
    match findSev issue.toList with
    | some g =>
      let r1 := odSet record "severity" (Value.vStr (String.mk (pyStripChars g)))
      odSet r1 "issue" (Value.vStr (cleanIssue issue))
    | none => record
  | _ => record

/-- The four fixed leading field names. -/
def BASE_COLUMNS : List String := ["timestamp", "message_type", "service", "action"]

/-- Source lines 118-119: record[key] = normalize_value(raw_value) for each
payload item in order. -/
def insertPayload (base : Record) (pl : List (String × String)) : Record :=
  pl.foldl (fun r kv => odSet r kv.1 (normalize_value kv.2)) base

/-- The record of the four fixed leading fields (source lines 110-117). -/
def baseRecord (p0 p1 p2 p3 p4 : String) : Record :=
  [("timestamp", Value.vStr (p0 ++ " " ++ p1)),
   ("message_type", Value.vStr p2),
   ("service", Value.vStr p3),
   ("action", Value.vStr p4)]

/-- Source lines 88-131, parse_line: None when the line has fewer than six
whitespace tokens; otherwise the record of the four base fields followed by
the normalized payload fields, with severity post-processing. -/
def parse_line (line : String) : Option Record :=
  match pySplit line with
  | p0 :: p1 :: p2 :: p3 :: p4 :: p5 :: rest =>
    some (applySeverity
      (insertPayload (baseRecord p0 p1 p2 p3 p4) (scanPayload (p5 :: rest)).payload))
  | _ => none

/-- Source line 134, schema_key: the ordered tuple of a record's field names. -/
def schema_key (r : Record) : List String := r.map Prod.fst

abbrev SchemaKey := List String
abbrev SchemaGroup := SchemaKey × List Record

/-- records_by_schema.setdefault(key, []).append(record): append the record
to its key's group, creating the group at the end on first appearance. -/
def addRecord : List SchemaGroup → SchemaKey → Record → List SchemaGroup
  | [], k, r => [(k, [r])]
  | (k', rs) :: rest, k, r =>
    if k' = k then (k', rs ++ [r]) :: rest else (k', rs) :: addRecord rest k r

/-- The classification loop of main (source lines 269-278), started from an
arbitrary accumulator for reasoning. -/
def classifyFrom (acc : List SchemaGroup) (recs : List Record) : List SchemaGroup :=
  recs.foldl (fun a r => addRecord a (schema_key r) r) acc

/-- Grouping of the parsed records by schema key, in first-seen key order. -/
def classify (recs : List Record) : List SchemaGroup := classifyFrom [] recs

/-- All successfully parsed records of the input lines, in order
(blank lines have fewer than six tokens, hence parse to None). -/
def parsedRecords (lines : List String) : List Record := lines.filterMap parse_line

/-- Python lexicographic comparison of equal-or-unequal length string tuples
(strings compared by code point, as Python does). -/
def listLtB : List String → List String → Bool
  | [], [] => false
  | [], _ :: _ => true
  | _ :: _, [] => false
  | a :: as, b :: bs => if a < b then true else if b < a then false else listLtB as bs

/-- The sort key of source line 146: the pair (len(schema key), schema key),
compared as Python tuples. -/
def keyLtB (k₁ k₂ : List String) : Bool :=
  if k₁.length < k₂.length then true
  else if k₂.length < k₁.length then false
  else listLtB k₁ k₂

/-- Non-strict group comparison used for sorting the schema groups. -/
def grpLe (g₁ g₂ : SchemaGroup) : Prop := keyLtB g₁.1 g₂.1 = true ∨ g₁.1 = g₂.1

instance : DecidableRel grpLe := fun _ _ => inferInstanceAs (Decidable (_ ∨ _))

/-- sorted(records_by_schema.items(), key=(len, key)) of source lines 145-147. -/
def sortGroups (gs : List SchemaGroup) : List SchemaGroup := List.insertionSort grpLe gs

/-- One manifest entry as assembled at source lines 155-167. -/
structure ManifestEntry where
  schema_id : Nat
  table_name : String
  columns : List String
  filename : String
  row_count : Nat
deriving DecidableEq

/-- Python format spec 02: zero-pad to two digits. -/
def fmt02 (n : Nat) : String := if n < 10 then "0" ++ toString n else toString n

/-- Path joining, output_dir / name. -/
def pathJoin (dir file : String) : String := dir ++ "/" ++ file

/-- filename.relative_to(BASE_DIR) if filename.is_relative_to(BASE_DIR)
else filename, on slash-separated path strings. -/
def relToBase (base path : String) : String :=
  if (base ++ "/").toList.isPrefixOf path.toList
  then String.mk (path.toList.drop ((base ++ "/").toList.length))
  else path

/-- The writer loop of source lines 148-168 (enumerate start=1): produces per
group the manifest entry and the shard file as (path, records written). -/
def buildShards (pfx outDir base : String) : Nat → List SchemaGroup →
    List (ManifestEntry × (String × List Record))
  | _, [] => []
  | idx, (cols, recs) :: rest =>
    let tname := pfx ++ "_schema_" ++ fmt02 idx
    let path := pathJoin outDir (tname ++ ".jsonl")
    (⟨idx, tname, cols, relToBase base path, recs.length⟩, (path, recs)) ::
      buildShards pfx outDir base (idx + 1) rest

/-- Source lines 138-175, write_jsonl: sort the groups, write one shard file
per group, return the manifest (the shard files are returned alongside; the
JSON serialization of each record list is a function of that list, so
byte-level file content is determined by these record lists). -/
def write_jsonl (gs : List SchemaGroup) (outDir pfx base : String) :
    List ManifestEntry × List (String × List Record) :=
  let shards := buildShards pfx outDir base 1 (sortGroups gs)
  (shards.map Prod.fst, shards.map Prod.snd)

/-- The parse, classify and shard-write stages of main (source lines 269-281). -/
def runPipeline (lines : List String) (outDir pfx base : String) :
    List ManifestEntry × List (String × List Record) :=
  write_jsonl (classify (parsedRecords lines)) outDir pfx base

/-- Observable events of one run of the two sync drivers. -/
inductive SyncEvent where
  | localEntered
  | localSkipped
  | localLoaded (t : String)
  | remoteEntered
  | remoteSkipped
  | remoteLoaded (t : String)
deriving DecidableEq

/-- Exceptions the sync drivers can raise. -/
inductive SyncError where
  | dbNotFound
  | localLoadError (t : String)
  | remoteLoadError (t : String)
deriving DecidableEq

/-- Configuration and external-world behavior for one run of main:
CLI flags, environment, existence of the local database file, and which
table loads the destination database fails (raises) on. -/
structure SyncConfig where
  duckdbPath : Option String
  duckdbExists : Bool
  skipDuckdb : Bool
  motherduckToken : Option String
  motherduckDb : String
  skipMotherduck : Bool
  localLoadFails : String → Bool
  remoteLoadFails : String → Bool

/-- The per-entry load loop shared by both drivers (source lines 200-211 and
240-251): tables are processed in manifest order; the first failing load
raises, aborting the remaining loads of that driver. -/
def loadLoop (fails : String → Bool) (mkEv : String → SyncEvent)
    (mkErr : String → SyncError) : List ManifestEntry → List SyncEvent × Option SyncError
  | [] => ([], none)
  | e :: rest =>
    if fails e.table_name then ([], some (mkErr e.table_name))
    else
      let p := loadLoop fails mkEv mkErr rest
      (mkEv e.table_name :: p.1, p.2)

/-- Source lines 178-213, rebuild_duckdb_tables: skip on flag or missing
path; raise FileNotFoundError when the database file is absent; otherwise
load tables in manifest order until the first failure. -/
def rebuild_duckdb_tables (manifest : List ManifestEntry) (cfg : SyncConfig) :
    List SyncEvent × Option SyncError :=
  if cfg.skipDuckdb then ([SyncEvent.localSkipped], none)
  else if cfg.duckdbPath = none then ([SyncEvent.localSkipped], none)
  else if cfg.duckdbExists then
    let p := loadLoop cfg.localLoadFails SyncEvent.localLoaded
      SyncError.localLoadError manifest
    (SyncEvent.localEntered :: p.1, p.2)
  else ([], some SyncError.dbNotFound)

/-- Python truthiness of MOTHERDUCK_TOKEN: non-None and nonempty. -/
def tokenTruthy : Option String → Bool
  | none => false
  | some s => !(s == "")

/-- Source lines 216-254, load_into_motherduck: skip (non-fatally) on flag,
missing or empty token, or empty database name; otherwise load tables in
manifest order until the first failure. -/
def load_into_motherduck (manifest : List ManifestEntry) (cfg : SyncConfig) :
    List SyncEvent × Option SyncError :=
  if cfg.skipMotherduck then ([SyncEvent.remoteSkipped], none)
  else if tokenTruthy cfg.motherduckToken = false then ([SyncEvent.remoteSkipped], none)
  else if cfg.motherduckDb = "" then ([SyncEvent.remoteSkipped], none)
  else
    let p := loadLoop cfg.remoteLoadFails SyncEvent.remoteLoaded
      SyncError.remoteLoadError manifest
    (SyncEvent.remoteEntered :: p.1, p.2)

/-- Source lines 282-285 of main: the local driver runs first; an uncaught
exception from it propagates, so the remote driver runs only when the local
driver returned normally. -/
def mainSync (manifest : List ManifestEntry) (cfg : SyncConfig) :
    List SyncEvent × Option SyncError :=
  let pl := rebuild_duckdb_tables manifest cfg
  match pl.2 with
  | some e => (pl.1, some e)
  | none =>
    let pr := load_into_motherduck manifest cfg
    (pl.1 ++ pr.1, pr.2)

/-- An event witnessing that the remote driver was invoked at all. -/
def isRemoteEvent : SyncEvent → Bool
  | SyncEvent.remoteEntered => true
  | SyncEvent.remoteSkipped => true
  | SyncEvent.remoteLoaded _ => true
  | _ => false

/-- Whether a trace shows the remote driver was attempted. -/
def remoteAttempted (evs : List SyncEvent) : Bool := evs.any isRemoteEvent

/-- Lookup of a schema group by key. -/
def grpLookup : List SchemaGroup → SchemaKey → Option (List Record)
  | [], _ => none
  | (k', rs) :: rest, k => if k' = k then some rs else grpLookup rest k

/-- The strict part of the group ordering. -/
def grpLt (g₁ g₂ : SchemaGroup) : Prop := keyLtB g₁.1 g₂.1 = true

/-- Quote stripping of normalize_value (source lines 78-79): remove one pair
of surrounding double-quote characters. -/
def stripQuotesChars (cs : List Char) : List Char :=
  if cs.head? = some '"' ∧ cs.getLast? = some '"' then (cs.drop 1).dropLast else cs

/-- Numeric coercion of normalize_value (source lines 80-85): int for a
digit string, float for a digit string with one dot, else the string. -/
def coerceChars (v : List Char) : Value :=
  if pyIsDigit (removeFirstDot v) ∧ v.count '.' ≤ 1 then
    if v.contains '.' then Value.vFloat (floatOfChars v)
    else Value.vInt (digitsToNat v)
  else Value.vStr (String.mk v)

/-- Modelled from the claim's words (C8): strip surrounding quote
characters, then coerce, with no whitespace stripping. For comparison with
normalize_value, which strips whitespace first. -/
def normalizeClaimC8 (raw : String) : Value :=
  coerceChars (stripQuotesChars raw.toList)

/-! Ordered-dictionary lemmas. -/

theorem odSet_of_not_mem {α : Type} (k : String) (v : α) :
    ∀ l : List (String × α), k ∉ l.map Prod.fst → odSet l k v = l ++ [(k, v)]
  | [], _ => rfl
  | (k', v') :: rest, h => by
    have hk : k' ≠ k := fun he => h (by simp [he])
    have hr : k ∉ rest.map Prod.fst := fun hm => h (by simp [hm])
    simp [odSet, hk, odSet_of_not_mem k v rest hr]

theorem odSet_keys_of_mem {α : Type} (k : String) (v : α) :
    ∀ l : List (String × α), k ∈ l.map Prod.fst →
      (odSet l k v).map Prod.fst = l.map Prod.fst
  | [], h => by simp at h
  | (k', v') :: rest, h => by
    by_cases hk : k' = k
    · simp [odSet, hk]
    · have hr : k ∈ rest.map Prod.fst := by
        rcases (by simpa using h) with h1 | h1
        · exact absurd h1.symm hk
        · simpa using h1
      simp [odSet, hk, odSet_keys_of_mem k v rest hr]

theorem odSet_keys {α : Type} (l : List (String × α)) (k : String) (v : α) :
    (odSet l k v).map Prod.fst = l.map Prod.fst ∨
      (odSet l k v).map Prod.fst = l.map Prod.fst ++ [k] := by
  by_cases h : k ∈ l.map Prod.fst
  · exact Or.inl (odSet_keys_of_mem k v l h)
  · right; rw [odSet_of_not_mem k v l h]; simp

theorem odSet_nodup {α : Type} (l : List (String × α)) (k : String) (v : α)
    (h : (l.map Prod.fst).Nodup) : ((odSet l k v).map Prod.fst).Nodup := by
  by_cases hm : k ∈ l.map Prod.fst
  · rwa [odSet_keys_of_mem k v l hm]
  · rw [odSet_of_not_mem k v l hm, List.map_append]
    refine List.Nodup.append h (by simp) ?_
    intro x hx hy
    simp only [List.map_cons, List.map_nil, List.mem_singleton] at hy
    exact hm (hy ▸ hx)

theorem odSet_lookup_self {α : Type} (k : String) (v : α) :
    ∀ l : List (String × α), odLookup (odSet l k v) k = some v
  | [] => by simp [odSet, odLookup]
  | (k', v') :: rest => by
    by_cases hk : k' = k
    · simp [odSet, odLookup, hk]
    · simp [odSet, odLookup, hk, odSet_lookup_self k v rest]

theorem odSet_lookup_ne {α : Type} (k k' : String) (v : α) (h : k' ≠ k) :
    ∀ l : List (String × α), odLookup (odSet l k v) k' = odLookup l k'
  | [] => by simp [odSet, odLookup, Ne.symm h]
  | (k₀, v₀) :: rest => by
    by_cases hk : k₀ = k
    · subst hk; simp [odSet, odLookup, Ne.symm h]
    · simp [odSet, odLookup, hk, odSet_lookup_ne k k' v h rest]

theorem odModify_keys {α : Type} (k : String) (f : α → α) :
    ∀ l : List (String × α), (odModify l k f).map Prod.fst = l.map Prod.fst
  | [] => rfl
  | (k', v') :: rest => by
    by_cases hk : k' = k <;> simp [odModify, hk, odModify_keys k f rest]

theorem odLookup_some_mem {α : Type} {k : String} {v : α} :
    ∀ {l : List (String × α)}, odLookup l k = some v → k ∈ l.map Prod.fst
  | [], h => by simp [odLookup] at h
  | (k', v') :: rest, h => by
    by_cases hk : k' = k
    · simp [hk]
    · simp only [odLookup, if_neg hk] at h
      simpa using Or.inr (odLookup_some_mem h)

/-! Scan and record-shape invariants. -/

theorem scanStep_payload_nodup (st : ScanSt) (tok : String)
    (h : (st.payload.map Prod.fst).Nodup) :
    ((scanStep st tok).payload.map Prod.fst).Nodup := by
  obtain ⟨pl, ck⟩ := st
  simp only at h
  unfold scanStep
  by_cases h1 : hasEqSign tok
  · simp only [if_pos h1]
    exact odSet_nodup _ _ _ h
  · simp only [if_neg h1]
    cases ck with
    | none => exact h
    | some c =>
      by_cases he : c = ""
      · simp only [he]
        simpa using h
      · simpa [he, odModify_keys] using h

theorem scanFold_payload_nodup :
    ∀ (toks : List String) (st : ScanSt), (st.payload.map Prod.fst).Nodup →
      (((toks.foldl scanStep st).payload).map Prod.fst).Nodup
  | [], _, h => h
  | t :: ts, st, h =>
    scanFold_payload_nodup ts (scanStep st t) (scanStep_payload_nodup st t h)

theorem scanPayload_nodup (toks : List String) :
    (((scanPayload toks).payload).map Prod.fst).Nodup :=
  scanFold_payload_nodup toks ⟨[], none⟩ (by simp)

theorem insertPayload_keys_extend :
    ∀ (pl : List (String × String)) (base : Record),
      ∃ extra, (insertPayload base pl).map Prod.fst = base.map Prod.fst ++ extra
  | [], base => ⟨[], by simp [insertPayload]⟩
  | kv :: pls, base => by
    have hstep := odSet_keys base kv.1 (normalize_value kv.2)
    obtain ⟨e, he⟩ := insertPayload_keys_extend pls (odSet base kv.1 (normalize_value kv.2))
    rcases hstep with h | h
    · exact ⟨e, by
        simp only [insertPayload, List.foldl_cons] at he ⊢
        rw [he, h]⟩
    · exact ⟨[kv.1] ++ e, by
        simp only [insertPayload, List.foldl_cons] at he ⊢
        rw [he, h, List.append_assoc]⟩

theorem insertPayload_nodup :
    ∀ (pl : List (String × String)) (base : Record),
      (base.map Prod.fst).Nodup → ((insertPayload base pl).map Prod.fst).Nodup
  | [], _, h => h
  | kv :: pls, base, h =>
    insertPayload_nodup pls (odSet base kv.1 (normalize_value kv.2)) (odSet_nodup _ _ _ h)

theorem insertPayload_lookup_not_mem :
    ∀ (pl : List (String × String)) (base : Record) (k : String),
      k ∉ pl.map Prod.fst → odLookup (insertPayload base pl) k = odLookup base k
  | [], _, _, _ => rfl
  | kv :: pls, base, k, h => by
    have h1 : k ∉ pls.map Prod.fst := fun hm => h (by simp [hm])
    have h2 : k ≠ kv.1 := fun he => h (by simp [he])
    rw [show insertPayload base (kv :: pls) =
        insertPayload (odSet base kv.1 (normalize_value kv.2)) pls from rfl,
      insertPayload_lookup_not_mem pls _ k h1, odSet_lookup_ne _ _ _ h2]

theorem insertPayload_lookup_mem :
    ∀ (pl : List (String × String)) (base : Record) (k v : String),
      (pl.map Prod.fst).Nodup → (k, v) ∈ pl →
      odLookup (insertPayload base pl) k = some (normalize_value v)
  | [], _, _, _, _, hm => by simp at hm
  | kv :: pls, base, k, v, hnd, hm => by
    rcases List.mem_cons.mp hm with he | ht
    · have hk : k ∉ pls.map Prod.fst := by
        rw [show k = kv.1 from congrArg Prod.fst he]
        exact (List.nodup_cons.mp (by simpa using hnd)).1
      rw [show insertPayload base (kv :: pls) =
          insertPayload (odSet base kv.1 (normalize_value kv.2)) pls from rfl,
        insertPayload_lookup_not_mem pls _ k hk,
        show kv = (k, v) from he.symm, odSet_lookup_self]
    · exact insertPayload_lookup_mem pls _ k v (by simpa using hnd.of_cons) ht

theorem applySeverity_shape (r : Record) :
    applySeverity r = r ∨
      ∃ sv iv, applySeverity r = odSet (odSet r "severity" sv) "issue" iv := by
  unfold applySeverity
  split
  · split
    · exact Or.inr ⟨_, _, rfl⟩
    · exact Or.inl rfl
  · exact Or.inl rfl

theorem applySeverity_nodup (r : Record) (h : (r.map Prod.fst).Nodup) :
    ((applySeverity r).map Prod.fst).Nodup := by
  rcases applySeverity_shape r with he | ⟨sv, iv, he⟩
  · rwa [he]
  · rw [he]; exact odSet_nodup _ _ _ (odSet_nodup _ _ _ h)

theorem applySeverity_keys_extend (r : Record) :
    (applySeverity r).map Prod.fst = r.map Prod.fst ∨
      (applySeverity r).map Prod.fst = r.map Prod.fst ++ ["severity"] := by
  unfold applySeverity
  split
  · rename_i issue hlook
    split
    · rename_i g hfind
      have hiss : "issue" ∈ r.map Prod.fst := odLookup_some_mem hlook
      have h1 := odSet_keys r "severity" (Value.vStr (String.mk (pyStripChars g)))
      have hiss1 : "issue" ∈
          (odSet r "severity" (Value.vStr (String.mk (pyStripChars g)))).map Prod.fst := by
        rcases h1 with h1 | h1 <;> rw [h1] <;> simp [hiss]
      rw [odSet_keys_of_mem _ _ _ hiss1]
      exact h1
    · exact Or.inl rfl
  · exact Or.inl rfl

theorem applySeverity_lookup_ne (r : Record) (k : String)
    (h1 : k ≠ "issue") (h2 : k ≠ "severity") :
    odLookup (applySeverity r) k = odLookup r k := by
  rcases applySeverity_shape r with he | ⟨sv, iv, he⟩
  · rw [he]
  · rw [he, odSet_lookup_ne _ _ _ h1, odSet_lookup_ne _ _ _ h2]

theorem parse_line_eq_of_split {line p0 p1 p2 p3 p4 p5 : String} {rest : List String}
    (h : pySplit line = p0 :: p1 :: p2 :: p3 :: p4 :: p5 :: rest) :
    parse_line line = some (applySeverity
      (insertPayload (baseRecord p0 p1 p2 p3 p4) (scanPayload (p5 :: rest)).payload)) := by
  unfold parse_line
  rw [h]

theorem parse_line_none_iff (line : String) :
    parse_line line = none ↔ (pySplit line).length < 6 := by
  unfold parse_line
  rcases hs : pySplit line with _ | ⟨p0, _ | ⟨p1, _ | ⟨p2, _ | ⟨p3, _ | ⟨p4, _ | ⟨p5, rest⟩⟩⟩⟩⟩⟩ <;>
    simp [hs]

theorem parse_keys_base {line : String} {rec : Record} (h : parse_line line = some rec) :
    ∃ extra, schema_key rec = BASE_COLUMNS ++ extra := by
  unfold parse_line at h
  rcases hs : pySplit line with _ | ⟨p0, _ | ⟨p1, _ | ⟨p2, _ | ⟨p3, _ | ⟨p4, _ | ⟨p5, rest⟩⟩⟩⟩⟩⟩ <;>
    rw [hs] at h <;> simp only [Option.some.injEq, reduceCtorEq] at h
  subst h
  obtain ⟨e1, he1⟩ := insertPayload_keys_extend (scanPayload (p5 :: rest)).payload
    (baseRecord p0 p1 p2 p3 p4)
  rcases applySeverity_keys_extend (insertPayload (baseRecord p0 p1 p2 p3 p4)
      (scanPayload (p5 :: rest)).payload) with h2 | h2
  · exact ⟨e1, by rw [schema_key, h2, he1]; rfl⟩
  · exact ⟨e1 ++ ["severity"], by
      rw [schema_key, h2, he1, List.append_assoc]; rfl⟩

theorem parse_keys_nodup {line : String} {rec : Record} (h : parse_line line = some rec) :
    (schema_key rec).Nodup := by
  unfold parse_line at h
  rcases hs : pySplit line with _ | ⟨p0, _ | ⟨p1, _ | ⟨p2, _ | ⟨p3, _ | ⟨p4, _ | ⟨p5, rest⟩⟩⟩⟩⟩⟩ <;>
    rw [hs] at h <;> simp only [Option.some.injEq, reduceCtorEq] at h
  subst h
  exact applySeverity_nodup _ (insertPayload_nodup (scanPayload (p5 :: rest)).payload
    (baseRecord p0 p1 p2 p3 p4) (by simp [baseRecord]))

/-! Classification lemmas. -/

theorem addRecord_grpLookup_self (k : SchemaKey) (r : Record) :
    ∀ acc : List SchemaGroup,
      grpLookup (addRecord acc k r) k = some ((grpLookup acc k).getD [] ++ [r])
  | [] => by simp [addRecord, grpLookup]
  | (k', rs) :: rest => by
    by_cases hk : k' = k
    · simp [addRecord, grpLookup, hk]
    · simp [addRecord, grpLookup, hk, addRecord_grpLookup_self k r rest]

theorem addRecord_grpLookup_ne (k k' : SchemaKey) (r : Record) (h : k' ≠ k) :
    ∀ acc : List SchemaGroup, grpLookup (addRecord acc k r) k' = grpLookup acc k'
  | [] => by simp [addRecord, grpLookup, Ne.symm h]
  | (k₀, rs) :: rest => by
    by_cases hk : k₀ = k
    · subst hk; simp [addRecord, grpLookup, Ne.symm h]
    · simp [addRecord, grpLookup, hk, addRecord_grpLookup_ne k k' r h rest]

theorem addRecord_keys_of_mem (k : SchemaKey) (r : Record) :
    ∀ acc : List SchemaGroup, k ∈ acc.map Prod.fst →
      (addRecord acc k r).map Prod.fst = acc.map Prod.fst
  | [], h => by simp at h
  | (k', rs) :: rest, h => by
    by_cases hk : k' = k
    · simp [addRecord, hk]
    · have hr : k ∈ rest.map Prod.fst := by
        rcases (by simpa using h) with h1 | h1
        · exact absurd h1.symm hk
        · simpa using h1
      simp [addRecord, hk, addRecord_keys_of_mem k r rest hr]

theorem addRecord_keys_of_not_mem (k : SchemaKey) (r : Record) :
    ∀ acc : List SchemaGroup, k ∉ acc.map Prod.fst →
      (addRecord acc k r).map Prod.fst = acc.map Prod.fst ++ [k]
  | [], _ => rfl
  | (k', rs) :: rest, h => by
    have hk : k' ≠ k := fun he => h (by simp [he])
    have hr : k ∉ rest.map Prod.fst := fun hm => h (by simp [hm])
    simp [addRecord, hk, addRecord_keys_of_not_mem k r rest hr]

theorem addRecord_nodup (k : SchemaKey) (r : Record) (acc : List SchemaGroup)
    (h : (acc.map Prod.fst).Nodup) : ((addRecord acc k r).map Prod.fst).Nodup := by
  by_cases hm : k ∈ acc.map Prod.fst
  · rwa [addRecord_keys_of_mem k r acc hm]
  · rw [addRecord_keys_of_not_mem k r acc hm]
    refine List.Nodup.append h (by simp) ?_
    intro x hx hy
    simp only [List.mem_singleton] at hy
    exact hm (hy ▸ hx)

theorem addRecord_sum (k : SchemaKey) (r : Record) :
    ∀ acc : List SchemaGroup,
      ((addRecord acc k r).map (fun g => g.2.length)).sum =
        (acc.map (fun g => g.2.length)).sum + 1
  | [] => by simp [addRecord]
  | (k', rs) :: rest => by
    by_cases hk : k' = k
    · simp [addRecord, hk]; omega
    · simp [addRecord, hk, addRecord_sum k r rest]; omega

theorem addRecord_join (k : SchemaKey) (r : Record) :
    ∀ acc : List SchemaGroup,
      List.Perm ((addRecord acc k r).map Prod.snd).join ((acc.map Prod.snd).join ++ [r])
  | [] => by simp [addRecord]
  | (k', rs) :: rest => by
    by_cases hk : k' = k
    · simp only [addRecord, if_pos hk, List.map_cons, List.join_cons]
      refine List.Perm.trans (List.Perm.of_eq (List.append_assoc rs [r] _)) ?_
      refine List.Perm.trans (List.Perm.append_left rs List.perm_append_comm) ?_
      exact List.Perm.of_eq (List.append_assoc rs _ [r]).symm
    · simp only [addRecord, if_neg hk, List.map_cons, List.join_cons]
      refine List.Perm.trans (List.Perm.append_left rs (addRecord_join k r rest)) ?_
      exact List.Perm.of_eq (List.append_assoc rs _ [r]).symm

theorem classifyFrom_cons (acc : List SchemaGroup) (r : Record) (rs : List Record) :
    classifyFrom acc (r :: rs) = classifyFrom (addRecord acc (schema_key r) r) rs := rfl

theorem classifyFrom_lookup_some :
    ∀ (recs : List Record) (acc : List SchemaGroup) (k : SchemaKey) (g : List Record),
      grpLookup acc k = some g →
      grpLookup (classifyFrom acc recs) k =
        some (g ++ recs.filter (fun r => decide (schema_key r = k)))
  | [], acc, k, g, h => by simpa [classifyFrom] using h
  | r :: rs, acc, k, g, h => by
    rw [classifyFrom_cons]
    by_cases hk : schema_key r = k
    · have h1 : grpLookup (addRecord acc (schema_key r) r) k = some (g ++ [r]) := by
        rw [hk, addRecord_grpLookup_self, h]; rfl
      rw [classifyFrom_lookup_some rs _ k (g ++ [r]) h1]
      simp [List.filter_cons, hk, List.append_assoc]
    · have h1 : grpLookup (addRecord acc (schema_key r) r) k = some g := by
        rw [addRecord_grpLookup_ne _ _ _ (fun he => hk he.symm)]; exact h
      rw [classifyFrom_lookup_some rs _ k g h1]
      simp [List.filter_cons, hk]

theorem classifyFrom_lookup_none :
    ∀ (recs : List Record) (acc : List SchemaGroup) (k : SchemaKey),
      grpLookup acc k = none →
      grpLookup (classifyFrom acc recs) k =
        (if recs.filter (fun r => decide (schema_key r = k)) = [] then none
         else some (recs.filter (fun r => decide (schema_key r = k))))
  | [], acc, k, h => by simpa [classifyFrom] using h
  | r :: rs, acc, k, h => by
    rw [classifyFrom_cons]
    by_cases hk : schema_key r = k
    · have h1 : grpLookup (addRecord acc (schema_key r) r) k = some [r] := by
        rw [hk, addRecord_grpLookup_self, h]; rfl
      rw [classifyFrom_lookup_some rs _ k [r] h1]
      simp [List.filter_cons, hk]
    · have h1 : grpLookup (addRecord acc (schema_key r) r) k = none := by
        rw [addRecord_grpLookup_ne _ _ _ (fun he => hk he.symm)]; exact h
      rw [classifyFrom_lookup_none rs _ k h1]
      simp [List.filter_cons, hk]

theorem classify_lookup (recs : List Record) (k : SchemaKey) :
    grpLookup (classify recs) k =
      (if recs.filter (fun r => decide (schema_key r = k)) = [] then none
       else some (recs.filter (fun r => decide (schema_key r = k)))) :=
  classifyFrom_lookup_none recs [] k rfl

theorem classifyFrom_nodup :
    ∀ (recs : List Record) (acc : List SchemaGroup), (acc.map Prod.fst).Nodup →
      ((classifyFrom acc recs).map Prod.fst).Nodup
  | [], _, h => h
  | r :: rs, acc, h =>
    classifyFrom_nodup rs (addRecord acc (schema_key r) r) (addRecord_nodup _ _ _ h)

theorem classify_keys_nodup (recs : List Record) :
    ((classify recs).map Prod.fst).Nodup :=
  classifyFrom_nodup recs [] (by simp)

theorem grpLookup_of_mem_nodup :
    ∀ {acc : List SchemaGroup}, (acc.map Prod.fst).Nodup →
      ∀ {k : SchemaKey} {g : List Record}, (k, g) ∈ acc → grpLookup acc k = some g
  | [], _, _, _, hm => by simp at hm
  | (k', g') :: rest, hnd, k, g, hm => by
    rcases List.mem_cons.mp hm with he | ht
    · obtain ⟨rfl, rfl⟩ : k' = k ∧ g' = g := by
        constructor <;> [exact (congrArg Prod.fst he).symm; exact (congrArg Prod.snd he).symm]
      simp [grpLookup]
    · have hk : k' ≠ k := by
        intro he
        subst he
        have : k' ∈ rest.map Prod.fst := by
          exact List.mem_map.mpr ⟨(k', g), ht, rfl⟩
        exact (List.nodup_cons.mp (by simpa using hnd)).1 this
      simp only [grpLookup, if_neg hk]
      exact grpLookup_of_mem_nodup (List.nodup_cons.mp (by simpa using hnd)).2 ht

theorem classifyFrom_sum :
    ∀ (recs : List Record) (acc : List SchemaGroup),
      ((classifyFrom acc recs).map (fun g => g.2.length)).sum =
        (acc.map (fun g => g.2.length)).sum + recs.length
  | [], _ => by simp [classifyFrom]
  | r :: rs, acc => by
    rw [classifyFrom_cons, classifyFrom_sum rs _, addRecord_sum]
    simp; omega

theorem classifyFrom_join :
    ∀ (recs : List Record) (acc : List SchemaGroup),
      List.Perm ((classifyFrom acc recs).map Prod.snd).join ((acc.map Prod.snd).join ++ recs)
  | [], _ => by simp [classifyFrom]
  | r :: rs, acc => by
    rw [classifyFrom_cons]
    refine List.Perm.trans (classifyFrom_join rs _) ?_
    refine List.Perm.trans (List.Perm.append_right rs (addRecord_join _ _ _)) ?_
    exact List.Perm.of_eq (by simp)

theorem classify_join (recs : List Record) :
    List.Perm ((classify recs).map Prod.snd).join recs := by
  simpa using classifyFrom_join recs []

theorem grpLookup_some_mem_pair :
    ∀ (acc : List SchemaGroup) (k : SchemaKey) (g : List Record),
      grpLookup acc k = some g → (k, g) ∈ acc
  | [], _, _, h => by simp [grpLookup] at h
  | (k', rs) :: rest, k, g, h => by
    by_cases hk : k' = k
    · subst hk
      simp only [grpLookup, if_pos] at h
      rw [Option.some.injEq] at h
      subst h
      exact List.mem_cons_self _ _
    · simp only [grpLookup, if_neg hk] at h
      exact List.mem_cons_of_mem _ (grpLookup_some_mem_pair rest k g h)

/-! Order lemmas for the sort key (len, tuple). -/

theorem listLtB_cons_iff (x y : String) (as bs : List String) :
    listLtB (x :: as) (y :: bs) = true ↔ (x < y ∨ (x = y ∧ listLtB as bs = true)) := by
  simp only [listLtB]
  split_ifs with h1 h2
  · exact iff_of_true rfl (Or.inl h1)
  · refine iff_of_false (by simp) ?_
    rintro (h | ⟨rfl, _⟩)
    · exact h1 h
    · exact lt_irrefl _ h2
  · have hxy : x = y := le_antisymm (not_lt.mp h2) (not_lt.mp h1)
    subst hxy
    simp [lt_irrefl]

theorem listLtB_trans : ∀ (a b c : List String),
    listLtB a b = true → listLtB b c = true → listLtB a c = true := by
  intro a
  induction a with
  | nil =>
    intro b c hab hbc
    cases b with
    | nil => simp [listLtB] at hab
    | cons y bs =>
      cases c with
      | nil => simp [listLtB] at hbc
      | cons z cs => simp [listLtB]
  | cons x as ih =>
    intro b c hab hbc
    cases b with
    | nil => simp [listLtB] at hab
    | cons y bs =>
      cases c with
      | nil => simp [listLtB] at hbc
      | cons z cs =>
        rw [listLtB_cons_iff] at hab hbc ⊢
        rcases hab with h1 | ⟨he1, h1⟩
        · rcases hbc with h2 | ⟨he2, h2⟩
          · exact Or.inl (lt_trans h1 h2)
          · exact Or.inl (lt_of_lt_of_eq h1 he2)
        · rcases hbc with h2 | ⟨he2, h2⟩
          · exact Or.inl (lt_of_eq_of_lt he1 h2)
          · exact Or.inr ⟨he1.trans he2, ih bs cs h1 h2⟩

theorem listLtB_asymm : ∀ (a b : List String),
    listLtB a b = true → listLtB b a = false := by
  intro a
  induction a with
  | nil =>
    intro b hab
    cases b with
    | nil => simp [listLtB] at hab
    | cons y bs => simp [listLtB]
  | cons x as ih =>
    intro b hab
    cases b with
    | nil => simp [listLtB] at hab
    | cons y bs =>
      rcases Bool.eq_false_or_eq_true (listLtB (y :: bs) (x :: as)) with ht | hf
      case inr => exact hf
      · exfalso
        rw [listLtB_cons_iff] at hab ht
        rcases hab with h1 | ⟨he1, h1⟩ <;> rcases ht with h2 | ⟨he2, h2⟩
        · exact lt_asymm h1 h2
        · exact lt_irrefl x (lt_of_lt_of_eq h1 he2)
        · exact lt_irrefl y (lt_of_lt_of_eq h2 he1)
        · simp [ih bs h1] at h2

theorem listLtB_conn : ∀ (a b : List String),
    listLtB a b = false → listLtB b a = false → a = b := by
  intro a
  induction a with
  | nil =>
    intro b h1 _
    cases b with
    | nil => rfl
    | cons y bs => simp [listLtB] at h1
  | cons x as ih =>
    intro b h1 h2
    cases b with
    | nil => simp [listLtB] at h2
    | cons y bs =>
      have n1 : ¬ (x < y ∨ (x = y ∧ listLtB as bs = true)) := by
        rw [← listLtB_cons_iff]; simp [h1]
      have n2 : ¬ (y < x ∨ (y = x ∧ listLtB bs as = true)) := by
        rw [← listLtB_cons_iff]; simp [h2]
      push_neg at n1 n2
      have hxy : x = y := le_antisymm (not_lt.mp n2.1) (not_lt.mp n1.1)
      subst hxy
      have hab : listLtB as bs = false := by
        rcases Bool.eq_false_or_eq_true (listLtB as bs) with h | h
        · exact absurd h (n1.2 rfl)
        · exact h
      have hba : listLtB bs as = false := by
        rcases Bool.eq_false_or_eq_true (listLtB bs as) with h | h
        · exact absurd h (n2.2 rfl)
        · exact h
      rw [ih bs hab hba]

theorem keyLtB_true_iff (a b : List String) :
    keyLtB a b = true ↔
      (a.length < b.length ∨ (a.length = b.length ∧ listLtB a b = true)) := by
  unfold keyLtB
  split_ifs with h1 h2
  · exact iff_of_true rfl (Or.inl h1)
  · refine iff_of_false (by simp) ?_
    rintro (h | ⟨he, _⟩)
    · exact h1 h
    · omega
  · have he : a.length = b.length := by omega
    simp [he]

theorem keyLtB_trans (a b c : List String)
    (h1 : keyLtB a b = true) (h2 : keyLtB b c = true) : keyLtB a c = true := by
  rw [keyLtB_true_iff] at h1 h2 ⊢
  rcases h1 with h1 | ⟨e1, h1⟩ <;> rcases h2 with h2 | ⟨e2, h2⟩
  · exact Or.inl (by omega)
  · exact Or.inl (by omega)
  · exact Or.inl (by omega)
  · exact Or.inr ⟨by omega, listLtB_trans a b c h1 h2⟩

theorem keyLtB_asymm (a b : List String) (h : keyLtB a b = true) :
    keyLtB b a = false := by
  rcases Bool.eq_false_or_eq_true (keyLtB b a) with ht | hf
  case inr => exact hf
  · exfalso
    rw [keyLtB_true_iff] at h ht
    rcases h with h | ⟨e, h⟩ <;> rcases ht with h' | ⟨e', h'⟩
    · omega
    · omega
    · omega
    · simp [listLtB_asymm a b h] at h'

theorem keyLtB_conn (a b : List String)
    (h1 : keyLtB a b = false) (h2 : keyLtB b a = false) : a = b := by
  have n1 : ¬ (a.length < b.length ∨ (a.length = b.length ∧ listLtB a b = true)) := by
    rw [← keyLtB_true_iff]; simp [h1]
  have n2 : ¬ (b.length < a.length ∨ (b.length = a.length ∧ listLtB b a = true)) := by
    rw [← keyLtB_true_iff]; simp [h2]
  push_neg at n1 n2
  have he : a.length = b.length := by omega
  refine listLtB_conn a b ?_ ?_
  · rcases Bool.eq_false_or_eq_true (listLtB a b) with h | h
    · exact absurd h (n1.2 he)
    · exact h
  · rcases Bool.eq_false_or_eq_true (listLtB b a) with h | h
    · exact absurd h (n2.2 he.symm)
    · exact h

theorem grpLe_total (g₁ g₂ : SchemaGroup) : grpLe g₁ g₂ ∨ grpLe g₂ g₁ := by
  rcases Bool.eq_false_or_eq_true (keyLtB g₁.1 g₂.1) with h | h
  · exact Or.inl (Or.inl h)
  · rcases Bool.eq_false_or_eq_true (keyLtB g₂.1 g₁.1) with h' | h'
    · exact Or.inr (Or.inl h')
    · exact Or.inl (Or.inr (keyLtB_conn _ _ h h'))

instance : IsTotal SchemaGroup grpLe := ⟨grpLe_total⟩

instance : IsTrans SchemaGroup grpLe := ⟨by
  intro a b c hab hbc
  rcases hab with h1 | h1 <;> rcases hbc with h2 | h2
  · exact Or.inl (keyLtB_trans _ _ _ h1 h2)
  · exact Or.inl (h2 ▸ h1)
  · refine Or.inl ?_
    rw [show a.1 = b.1 from h1]
    exact h2
  · exact Or.inr (h1.trans h2)⟩

theorem grpLt_asymm (a b : SchemaGroup) (h : grpLt a b) : ¬ grpLt b a := by
  intro h'
  unfold grpLt at h h'
  rw [keyLtB_asymm _ _ h] at h'
  exact Bool.false_ne_true h'

theorem sortGroups_perm (gs : List SchemaGroup) : List.Perm (sortGroups gs) gs :=
  List.perm_insertionSort grpLe gs

theorem sortGroups_sorted (gs : List SchemaGroup) : List.Sorted grpLe (sortGroups gs) :=
  List.sorted_insertionSort grpLe gs

theorem sorted_strict_of_nodup {l : List SchemaGroup}
    (hs : List.Sorted grpLe l) (hnd : (l.map Prod.fst).Nodup) : l.Pairwise grpLt := by
  have hne : l.Pairwise (fun a b => a.1 ≠ b.1) := List.pairwise_map.mp hnd
  refine (List.Pairwise.and hs hne).imp ?_
  rintro a b ⟨h1 | h1, h2⟩
  · exact h1
  · exact absurd h1 h2

theorem perm_pairwise_strict_eq {α : Type} {r : α → α → Prop}
    (hasymm : ∀ a b, r a b → ¬ r b a) :
    ∀ (l₁ l₂ : List α), List.Perm l₁ l₂ → l₁.Pairwise r → l₂.Pairwise r → l₁ = l₂ := by
  intro l₁
  induction l₁ with
  | nil =>
    intro l₂ hp _ _
    exact (List.Perm.eq_nil hp.symm).symm
  | cons a t ih =>
    intro l₂ hp h₁ h₂
    cases l₂ with
    | nil => exact absurd (List.Perm.eq_nil hp) (by simp)
    | cons b t₂ =>
      by_cases hab : a = b
      · subst hab
        rw [ih t₂ hp.cons_inv h₁.of_cons h₂.of_cons]
      · exfalso
        have ha : a ∈ b :: t₂ := hp.subset (List.mem_cons_self a t)
        have ha2 : a ∈ t₂ := by
          rcases List.mem_cons.mp ha with h | h
          · exact absurd h hab
          · exact h
        have hba : r b a := (List.pairwise_cons.mp h₂).1 a ha2
        have hb : b ∈ a :: t := hp.symm.subset (List.mem_cons_self b t₂)
        have hb2 : b ∈ t := by
          rcases List.mem_cons.mp hb with h | h
          · exact absurd h.symm hab
          · exact h
        have hab' : r a b := (List.pairwise_cons.mp h₁).1 b hb2
        exact hasymm a b hab' hba

theorem sortGroups_eq_of_perm {g₁ g₂ : List SchemaGroup} (hp : List.Perm g₁ g₂)
    (hnd : (g₁.map Prod.fst).Nodup) : sortGroups g₁ = sortGroups g₂ := by
  have hnd₂ : (g₂.map Prod.fst).Nodup := ((hp.map Prod.fst).nodup_iff).mp hnd
  have hnd₁s : ((sortGroups g₁).map Prod.fst).Nodup :=
    (((sortGroups_perm g₁).map Prod.fst).nodup_iff).mpr hnd
  have hnd₂s : ((sortGroups g₂).map Prod.fst).Nodup :=
    (((sortGroups_perm g₂).map Prod.fst).nodup_iff).mpr hnd₂
  refine perm_pairwise_strict_eq grpLt_asymm _ _ ?_ ?_ ?_
  · exact (sortGroups_perm g₁).trans (hp.trans (sortGroups_perm g₂).symm)
  · exact sorted_strict_of_nodup (sortGroups_sorted g₁) hnd₁s
  · exact sorted_strict_of_nodup (sortGroups_sorted g₂) hnd₂s

/-! Further ordered-dictionary and scan lemmas. -/

theorem odLookup_some_mem_pair {α : Type} :
    ∀ (l : List (String × α)) (k : String) (v : α),
      odLookup l k = some v → (k, v) ∈ l
  | [], _, _, h => by simp [odLookup] at h
  | (k', v') :: rest, k, v, h => by
    by_cases hk : k' = k
    · subst hk
      simp only [odLookup, if_pos] at h
      rw [Option.some.injEq] at h
      subst h
      exact List.mem_cons_self _ _
    · simp only [odLookup, if_neg hk] at h
      exact List.mem_cons_of_mem _ (odLookup_some_mem_pair rest k v h)

theorem odSet_append_left {α : Type} (k : String) (v : α) (tl : List (String × α)) :
    ∀ l : List (String × α), k ∈ l.map Prod.fst →
      odSet (l ++ tl) k v = odSet l k v ++ tl
  | [], h => by simp at h
  | (k', v') :: rest, h => by
    by_cases hk : k' = k
    · simp [odSet, hk]
    · have hr : k ∈ rest.map Prod.fst := by
        rcases (by simpa using h) with h1 | h1
        · exact absurd h1.symm hk
        · simpa using h1
      simp [odSet, hk, odSet_append_left k v tl rest hr]

theorem eq_split_of_contains :
    ∀ cs : List Char, cs.contains '=' = true →
      cs = cs.takeWhile (fun c => c ≠ '=') ++
        '=' :: ((cs.dropWhile (fun c => c ≠ '=')).drop 1) ∧
      '=' ∉ cs.takeWhile (fun c => c ≠ '=')
  | [], h => by simp at h
  | c :: cs, h => by
    by_cases hc : c = '='
    · subst hc
      constructor
      · simp [List.takeWhile_cons, List.dropWhile_cons]
      · simp [List.takeWhile_cons]
    · have hcs : cs.contains '=' = true := by
        have hm : '=' ∈ c :: cs := by simpa using h
        have hm2 : '=' ∈ cs := by
          rcases List.mem_cons.mp hm with he | ht
          · exact absurd he.symm hc
          · exact ht
        simpa using hm2
      obtain ⟨heq, hmem⟩ := eq_split_of_contains cs hcs
      have hd : decide (c ≠ '=') = true := by simp [hc]
      constructor
      · simp only [List.takeWhile_cons, List.dropWhile_cons]
        rw [if_pos hd, if_pos hd, List.cons_append]
        exact congrArg (c :: ·) heq
      · simp only [List.takeWhile_cons]
        rw [if_pos hd]
        intro hmem2
        rcases List.mem_cons.mp hmem2 with he | ht
        · exact hc he.symm
        · exact hmem ht

/-! Shard-writer lemmas. -/

theorem buildShards_length (pfx outDir base : String) :
    ∀ (idx : Nat) (gs : List SchemaGroup),
      (buildShards pfx outDir base idx gs).length = gs.length
  | _, [] => rfl
  | idx, g :: rest => by
    obtain ⟨cols, recs⟩ := g
    simp [buildShards, buildShards_length pfx outDir base (idx + 1) rest]

theorem buildShards_mem (pfx outDir base : String) :
    ∀ (gs : List SchemaGroup) (idx : Nat) (p : ManifestEntry × (String × List Record)),
      p ∈ buildShards pfx outDir base idx gs →
      ∃ g ∈ gs, p.1.columns = g.1 ∧ p.2.2 = g.2 ∧ p.1.row_count = g.2.length
  | [], _, _, hp => by simp [buildShards] at hp
  | g :: rest, idx, p, hp => by
    obtain ⟨cols, recs⟩ := g
    rcases List.mem_cons.mp hp with he | ht
    · exact ⟨(cols, recs), List.mem_cons_self _ _, by rw [he], by rw [he], by rw [he]⟩
    · obtain ⟨g', hg', h1, h2, h3⟩ := buildShards_mem pfx outDir base rest (idx + 1) p ht
      exact ⟨g', List.mem_cons_of_mem _ hg', h1, h2, h3⟩

theorem buildShards_get (pfx outDir base : String) :
    ∀ (gs : List SchemaGroup) (idx i : Nat) (h : i < gs.length)
      (h' : i < (buildShards pfx outDir base idx gs).length),
      (buildShards pfx outDir base idx gs).get ⟨i, h'⟩ =
        (⟨idx + i, pfx ++ "_schema_" ++ fmt02 (idx + i), (gs.get ⟨i, h⟩).1,
          relToBase base (pathJoin outDir ((pfx ++ "_schema_" ++ fmt02 (idx + i)) ++ ".jsonl")),
          (gs.get ⟨i, h⟩).2.length⟩,
         (pathJoin outDir ((pfx ++ "_schema_" ++ fmt02 (idx + i)) ++ ".jsonl"),
          (gs.get ⟨i, h⟩).2))
  | [], _, i, h, _ => absurd h (by simp)
  | g :: rest, idx, 0, h, h' => by
    obtain ⟨cols, recs⟩ := g
    simp [buildShards]
  | g :: rest, idx, i + 1, h, h' => by
    obtain ⟨cols, recs⟩ := g
    have hi : i < rest.length := Nat.lt_of_succ_lt_succ (by simpa using h)
    have hi' : i < (buildShards pfx outDir base (idx + 1) rest).length := by
      rw [buildShards_length]; exact hi
    have harith : idx + (i + 1) = idx + 1 + i := by omega
    simp only [buildShards, List.get_cons_succ]
    rw [buildShards_get pfx outDir base rest (idx + 1) i hi hi']
    simp only [harith]

theorem buildShards_columns (pfx outDir base : String) :
    ∀ (idx : Nat) (gs : List SchemaGroup),
      (buildShards pfx outDir base idx gs).map (fun p => p.1.columns) = gs.map Prod.fst
  | _, [] => rfl
  | idx, g :: rest => by
    obtain ⟨cols, recs⟩ := g
    simp [buildShards, buildShards_columns pfx outDir base (idx + 1) rest]

theorem buildShards_files (pfx outDir base : String) :
    ∀ (idx : Nat) (gs : List SchemaGroup),
      (buildShards pfx outDir base idx gs).map (fun p => p.2.2) = gs.map Prod.snd
  | _, [] => rfl
  | idx, g :: rest => by
    obtain ⟨cols, recs⟩ := g
    simp [buildShards, buildShards_files pfx outDir base (idx + 1) rest]

theorem buildShards_pairwise (pfx outDir base : String) :
    ∀ (gs : List SchemaGroup) (idx : Nat),
      gs.Pairwise grpLt →
      ((buildShards pfx outDir base idx gs).map Prod.fst).Pairwise
        (fun e₁ e₂ => keyLtB e₁.columns e₂.columns = true)
  | [], _, _ => List.Pairwise.nil
  | g :: rest, idx, hp => by
    obtain ⟨cols, recs⟩ := g
    simp only [buildShards, List.map_cons]
    refine List.Pairwise.cons ?_ (buildShards_pairwise pfx outDir base rest (idx + 1) hp.of_cons)
    intro e he
    obtain ⟨p, hpmem, rfl⟩ := List.mem_map.mp he
    obtain ⟨g', hg', hcols, _, _⟩ := buildShards_mem pfx outDir base rest (idx + 1) p hpmem
    rw [hcols]
    exact (List.pairwise_cons.mp hp).1 g' hg'

/-! Sync-driver lemmas. -/

theorem loadLoop_ok (fails : String → Bool) (mkEv : String → SyncEvent)
    (mkErr : String → SyncError) :
    ∀ manifest : List ManifestEntry,
      (∀ e ∈ manifest, fails e.table_name = false) →
      loadLoop fails mkEv mkErr manifest =
        (manifest.map (fun e => mkEv e.table_name), none)
  | [], _ => rfl
  | e :: rest, h => by
    have he : fails e.table_name = false := h e (List.mem_cons_self _ _)
    have hr := loadLoop_ok fails mkEv mkErr rest (fun x hx => h x (List.mem_cons_of_mem _ hx))
    simp [loadLoop, he, hr]

theorem loadLoop_first_fail (fails : String → Bool) (mkEv : String → SyncEvent)
    (mkErr : String → SyncError) :
    ∀ (pre : List ManifestEntry) (e : ManifestEntry) (post : List ManifestEntry),
      (∀ x ∈ pre, fails x.table_name = false) → fails e.table_name = true →
      loadLoop fails mkEv mkErr (pre ++ e :: post) =
        (pre.map (fun x => mkEv x.table_name), some (mkErr e.table_name))
  | [], e, post, _, hf => by simp [loadLoop, hf]
  | x :: xs, e, post, h, hf => by
    have hx : fails x.table_name = false := h x (List.mem_cons_self _ _)
    have hr := loadLoop_first_fail fails mkEv mkErr xs e post
      (fun y hy => h y (List.mem_cons_of_mem _ hy)) hf
    simp [loadLoop, hx, hr]

theorem loadLoop_events (fails : String → Bool) (mkEv : String → SyncEvent)
    (mkErr : String → SyncError) :
    ∀ (manifest : List ManifestEntry) (ev : SyncEvent),
      ev ∈ (loadLoop fails mkEv mkErr manifest).1 → ∃ t, ev = mkEv t
  | [], _, h => by simp [loadLoop] at h
  | e :: rest, ev, h => by
    by_cases hf : fails e.table_name
    · simp [loadLoop, hf] at h
    · simp only [loadLoop, if_neg hf] at h
      rcases List.mem_cons.mp h with he | ht
      · exact ⟨e.table_name, he⟩
      · exact loadLoop_events fails mkEv mkErr rest ev ht

theorem rebuild_no_remote (manifest : List ManifestEntry) (cfg : SyncConfig) :
    remoteAttempted (rebuild_duckdb_tables manifest cfg).1 = false := by
  unfold rebuild_duckdb_tables
  split
  · rfl
  · split
    · rfl
    · split
      · rw [remoteAttempted, List.any_eq_false]
        intro ev hev
        rcases List.mem_cons.mp hev with he | ht
        · rw [he]; simp [isRemoteEvent]
        · obtain ⟨t, rfl⟩ := loadLoop_events _ _ _ manifest ev ht
          simp [isRemoteEvent]
      · rfl

theorem motherduck_head_remote (manifest : List ManifestEntry) (cfg : SyncConfig) :
    ∃ ev evs, (load_into_motherduck manifest cfg).1 = ev :: evs ∧ isRemoteEvent ev = true := by
  unfold load_into_motherduck
  split
  · exact ⟨SyncEvent.remoteSkipped, [], rfl, rfl⟩
  · split
    · exact ⟨SyncEvent.remoteSkipped, [], rfl, rfl⟩
    · split
      · exact ⟨SyncEvent.remoteSkipped, [], rfl, rfl⟩
      · exact ⟨SyncEvent.remoteEntered, _, rfl, rfl⟩

theorem mainSync_of_local_err (manifest : List ManifestEntry) (cfg : SyncConfig)
    (err : SyncError) (h : (rebuild_duckdb_tables manifest cfg).2 = some err) :
    mainSync manifest cfg = ((rebuild_duckdb_tables manifest cfg).1, some err) := by
  simp only [mainSync]
  rw [h]

theorem mainSync_of_local_ok (manifest : List ManifestEntry) (cfg : SyncConfig)
    (h : (rebuild_duckdb_tables manifest cfg).2 = none) :
    mainSync manifest cfg =
      ((rebuild_duckdb_tables manifest cfg).1 ++ (load_into_motherduck manifest cfg).1,
       (load_into_motherduck manifest cfg).2) := by
  simp only [mainSync]
  rw [h]


theorem scanPayload_snoc (toks : List String) (tok : String) :
    scanPayload (toks ++ [tok]) = scanStep (scanPayload toks) tok := by
  unfold scanPayload
  rw [List.foldl_append]
  rfl

/-! Claim theorems. -/

/-- C7 counterexample: after the tail token "=v" the pending key is the
empty string; the claim says the following token "x" (which has no '=')
is then appended to that key's value, but parse_line drops it: the
payload value at "" stays "v", not "v x". -/
theorem c7_counterexample :
    (scanPayload ["=v"]).currentKey = some "" ∧
    hasEqSign "x" = false ∧
    (scanPayload ["=v", "x"]).payload = [("", "v")] ∧
    (scanPayload ["=v", "x"]).payload ≠ [("", "v x")] := by decide

/-- C7 (amended): the left-to-right scan of the tail tokens satisfies: a
token containing '=' is split on its FIRST '=' (the key is the
'='-free prefix) and its key becomes the pending key with the remainder as
its value; a token without '=' while a NONEMPTY key is pending is appended
to that key's value separated by a single space; a token without '=' when
no key is pending, or when the pending key is the empty string, is
dropped. -/
theorem c7_scan_step_rules :
    ∀ (toks : List String) (tok : String),
      (hasEqSign tok = true →
        scanPayload (toks ++ [tok]) =
          ⟨odSet (scanPayload toks).payload (eqKey tok) (eqVal tok), some (eqKey tok)⟩ ∧
        tok.toList = (eqKey tok).toList ++ '=' :: (eqVal tok).toList ∧
        '=' ∉ (eqKey tok).toList) ∧
      (hasEqSign tok = false →
        ∀ ck, (scanPayload toks).currentKey = some ck → ck ≠ "" →
          scanPayload (toks ++ [tok]) =
            ⟨odModify (scanPayload toks).payload ck (fun v => v ++ " " ++ tok), some ck⟩) ∧
      (hasEqSign tok = false →
        ((scanPayload toks).currentKey = none ∨ (scanPayload toks).currentKey = some "") →
        scanPayload (toks ++ [tok]) = scanPayload toks) := by
  intro toks tok
  refine ⟨fun h => ⟨?_, ?_, ?_⟩, fun h ck hck hne => ?_, fun h hck => ?_⟩
  · rw [scanPayload_snoc]
    unfold scanStep
    rw [if_pos h]
  · exact (eq_split_of_contains tok.toList h).1
  · exact (eq_split_of_contains tok.toList h).2
  · rw [scanPayload_snoc]
    unfold scanStep
    rw [if_neg (by simp [h]), hck]
    simp [hne]
  · rw [scanPayload_snoc]
    unfold scanStep
    rw [if_neg (by simp [h])]
    rcases hck with hck | hck <;> rw [hck] <;> simp

/-- C7 witness: the amended scan rules applied at concrete inputs: the
token "k=a=b" splits at the first '=', a plain token extends a nonempty
pending key, and a plain token under the empty pending key is dropped. -/
theorem c7_scan_step_rules_witness :
    (scanPayload ["k=1", "k=a=b"] =
      ⟨odSet (scanPayload ["k=1"]).payload (eqKey "k=a=b") (eqVal "k=a=b"),
       some (eqKey "k=a=b")⟩ ∧
      "k=a=b".toList = (eqKey "k=a=b").toList ++ '=' :: (eqVal "k=a=b").toList ∧
      '=' ∉ (eqKey "k=a=b").toList) ∧
    scanPayload ["k=1", "x"] =
      ⟨odModify (scanPayload ["k=1"]).payload "k" (fun v => v ++ " " ++ "x"), some "k"⟩ ∧
    scanPayload ["=v", "x"] = scanPayload ["=v"] :=
  ⟨(c7_scan_step_rules ["k=1"] "k=a=b").1 (by decide),
   (c7_scan_step_rules ["k=1"] "x").2.1 (by decide) "k" (by decide) (by decide),
   (c7_scan_step_rules ["=v"] "x").2.2 (by decide) (Or.inr (by decide))⟩

/-- C8 counterexample: the raw value " 5" (leading space; such values arise
from a token "k=" followed by a plain token) is coerced to the integer 5 by
normalize_value, because the code strips whitespace before the numeric
test; the claim's description (quote-strip then coerce, no whitespace
strip) keeps it as the string " 5". -/
theorem c8_counterexample :
    normalize_value " 5" = Value.vInt 5 ∧
    normalizeClaimC8 " 5" = Value.vStr " 5" ∧
    normalize_value " 5" ≠ normalizeClaimC8 " 5" := by decide

/-- C8 (amended): normalization strips surrounding WHITESPACE, then
surrounding quote characters, then coerces the result to an integer if it
is numeric with no decimal point and to a float if numeric with one
decimal point, and otherwise keeps it as a string; on inputs unchanged by
whitespace stripping this agrees with the claim's description, and the
claim's concrete examples hold. -/
theorem c8_normalize_value :
    (∀ raw : String,
      normalize_value raw = coerceChars (stripQuotesChars (pyStripChars raw.toList))) ∧
    (∀ raw : String, pyStripChars raw.toList = raw.toList →
      normalize_value raw = normalizeClaimC8 raw) ∧
    normalize_value "42" = Value.vInt 42 ∧
    normalize_value "3.14" = Value.vFloat (157 / 50) ∧
    normalize_value "abc" = Value.vStr "abc" ∧
    normalize_value "\"abc\"" = Value.vStr "abc" := by
  refine ⟨fun raw => rfl, fun raw h => ?_, by decide, ?_, by decide, by decide⟩
  · unfold normalizeClaimC8
    rw [show normalize_value raw = coerceChars (stripQuotesChars (pyStripChars raw.toList))
      from rfl, h]
  · have h0 : normalize_value "3.14" = Value.vFloat (floatOfChars "3.14".toList) := rfl
    have h1 : "3.14".toList.takeWhile (fun c => c ≠ '.') = ['3'] := by decide
    have h2 : ("3.14".toList.dropWhile (fun c => c ≠ '.')).drop 1 = ['1', '4'] := by decide
    have h3 : digitsToNat ['3'] = 3 := by decide
    have h4 : digitsToNat ['1', '4'] = 14 := by decide
    rw [h0]
    unfold floatOfChars
    rw [h1, h2]
    simp only [h3, h4, List.length_cons, List.length_nil]
    norm_num

/-- C8 witness: a value without surrounding whitespace, "42", on which
normalize_value agrees with the claim's quote-strip-then-coerce
description. -/
theorem c8_normalize_value_witness :
    pyStripChars "42".toList = "42".toList ∧
    normalize_value "42" = normalizeClaimC8 "42" :=
  ⟨by decide, c8_normalize_value.2.1 "42" (by decide)⟩


/-- C2 counterexample: when the issue field is not the last payload field,
the new severity field is appended at the END of the record, not
immediately after issue: here the field order ends issue, k, severity. -/
theorem c2_counterexample :
    parse_line "2024-01-01 00:00 INFO svc act issue=full (severity: high) k=1" =
      some [("timestamp", Value.vStr "2024-01-01 00:00"),
            ("message_type", Value.vStr "INFO"),
            ("service", Value.vStr "svc"),
            ("action", Value.vStr "act"),
            ("issue", Value.vStr "full"),
            ("k", Value.vInt 1),
            ("severity", Value.vStr "high")] ∧
    schema_key [("timestamp", Value.vStr "2024-01-01 00:00"),
            ("message_type", Value.vStr "INFO"),
            ("service", Value.vStr "svc"),
            ("action", Value.vStr "act"),
            ("issue", Value.vStr "full"),
            ("k", Value.vInt 1),
            ("severity", Value.vStr "high")] =
      ["timestamp", "message_type", "service", "action", "issue", "k", "severity"] ∧
    List.indexOf "severity"
        ["timestamp", "message_type", "service", "action", "issue", "k", "severity"] ≠
      List.indexOf "issue"
        ["timestamp", "message_type", "service", "action", "issue", "k", "severity"] + 1 := by
  refine ⟨by decide, by decide, by decide⟩

/-- C2 (amended): when a parsed record's issue field is a string with a
severity annotation and the record has no severity field yet, the record
is rewritten with issue replaced in place by the cleaned value (annotation
removed, trailing period stripped, whitespace trimmed) and a new severity
field holding the trimmed group appended at the END of the record's field
order (immediately after issue only when issue is the last field); the
spec's concrete example holds. -/
theorem c2_severity_extraction :
    (∀ (r : Record) (s : String) (g : List Char),
      odLookup r "issue" = some (Value.vStr s) →
      findSev s.toList = some g →
      "severity" ∉ r.map Prod.fst →
      applySeverity r =
        odSet r "issue" (Value.vStr (cleanIssue s)) ++
          [("severity", Value.vStr (String.mk (pyStripChars g)))]) ∧
    parse_line "2024-01-01 00:00 ERROR disk check issue=Disk nearly full (severity: critical)." =
      some [("timestamp", Value.vStr "2024-01-01 00:00"),
            ("message_type", Value.vStr "ERROR"),
            ("service", Value.vStr "disk"),
            ("action", Value.vStr "check"),
            ("issue", Value.vStr "Disk nearly full"),
            ("severity", Value.vStr "critical")] := by
  constructor
  · intro r s g h hf hns
    have h2 : applySeverity r =
        (match findSev s.toList with
          | some g' =>
            odSet (odSet r "severity" (Value.vStr (String.mk (pyStripChars g'))))
              "issue" (Value.vStr (cleanIssue s))
          | none => r) := by
      unfold applySeverity
      rw [h]
    rw [h2, hf]
    have hmem : "issue" ∈ r.map Prod.fst := odLookup_some_mem h
    rw [show (match some g with
        | some g' =>
          odSet (odSet r "severity" (Value.vStr (String.mk (pyStripChars g'))))
            "issue" (Value.vStr (cleanIssue s))
        | none => r) =
          odSet (odSet r "severity" (Value.vStr (String.mk (pyStripChars g))))
            "issue" (Value.vStr (cleanIssue s)) from rfl]
    rw [odSet_of_not_mem _ _ r hns]
    exact odSet_append_left _ _ _ r hmem
  · decide


/-- C6 counterexample: the line has exactly six whitespace tokens, so the
claim asserts field service = token 3 = "svc"; but the tail token
service=zzz overwrites the positional value, and the parsed record's
service field is "zzz". -/
theorem c6_counterexample :
    pySplit "2024-01-01 00:00 T svc act service=zzz" =
      ["2024-01-01", "00:00", "T", "svc", "act", "service=zzz"] ∧
    parse_line "2024-01-01 00:00 T svc act service=zzz" =
      some [("timestamp", Value.vStr "2024-01-01 00:00"),
            ("message_type", Value.vStr "T"),
            ("service", Value.vStr "zzz"),
            ("action", Value.vStr "act")] ∧
    odLookup [("timestamp", Value.vStr "2024-01-01 00:00"),
            ("message_type", Value.vStr "T"),
            ("service", Value.vStr "zzz"),
            ("action", Value.vStr "act")] "service" ≠ some (Value.vStr "svc") := by
  refine ⟨by decide, by decide, by decide⟩

/-- C6 (amended): parse_line returns None exactly when the line has fewer
than six whitespace tokens; every parsed record's first four field NAMES
are timestamp, message_type, service, action in that order; and when no
tail key equals one of those four names, their values are exactly tokens 0
and 1 joined by a single space, token 2, token 3 and token 4. -/
theorem c6_parse_base_fields :
    ∀ line : String,
      (parse_line line = none ↔ (pySplit line).length < 6) ∧
      (∀ rec, parse_line line = some rec → (schema_key rec).take 4 = BASE_COLUMNS) ∧
      (∀ p0 p1 p2 p3 p4 p5 rest rec,
        pySplit line = p0 :: p1 :: p2 :: p3 :: p4 :: p5 :: rest →
        parse_line line = some rec →
        (∀ k ∈ BASE_COLUMNS, k ∉ (scanPayload (p5 :: rest)).payload.map Prod.fst) →
        odLookup rec "timestamp" = some (Value.vStr (p0 ++ " " ++ p1)) ∧
        odLookup rec "message_type" = some (Value.vStr p2) ∧
        odLookup rec "service" = some (Value.vStr p3) ∧
        odLookup rec "action" = some (Value.vStr p4)) := by
  intro line
  refine ⟨parse_line_none_iff line, fun rec h => ?_, ?_⟩
  · obtain ⟨extra, he⟩ := parse_keys_base h
    rw [he, show (4 : Nat) = BASE_COLUMNS.length from rfl, List.take_left]
  · intro p0 p1 p2 p3 p4 p5 rest rec hs h hno
    rw [parse_line_eq_of_split hs, Option.some.injEq] at h
    subst h
    have hbase : ∀ k, k ∈ BASE_COLUMNS →
        odLookup (applySeverity (insertPayload (baseRecord p0 p1 p2 p3 p4)
            (scanPayload (p5 :: rest)).payload)) k =
          odLookup (baseRecord p0 p1 p2 p3 p4) k := by
      intro k hk
      have hki : k ≠ "issue" ∧ k ≠ "severity" := by
        simp only [BASE_COLUMNS, List.mem_cons, List.mem_singleton] at hk
        rcases hk with rfl | rfl | rfl | rfl | h0
        · exact ⟨by decide, by decide⟩
        · exact ⟨by decide, by decide⟩
        · exact ⟨by decide, by decide⟩
        · exact ⟨by decide, by decide⟩
        · simp at h0
      rw [applySeverity_lookup_ne _ k hki.1 hki.2,
        insertPayload_lookup_not_mem _ _ k (hno k hk)]
    refine ⟨?_, ?_, ?_, ?_⟩
    · rw [hbase "timestamp" (by decide)]; rfl
    · rw [hbase "message_type" (by decide)]; rfl
    · rw [hbase "service" (by decide)]; rfl
    · rw [hbase "action" (by decide)]; rfl

/-- C6 witness: a seven-token line whose tail keys avoid the base names;
its record parses with the four leading fields taken positionally. -/
theorem c6_parse_base_fields_witness :
    (parse_line "" = none ↔ (pySplit "").length < 6) ∧
    (odLookup [("timestamp", Value.vStr "2024-01-01 00:00"),
        ("message_type", Value.vStr "INFO"),
        ("service", Value.vStr "auth"),
        ("action", Value.vStr "login"),
        ("user", Value.vStr "bob")] "timestamp" =
      some (Value.vStr ("2024-01-01" ++ " " ++ "00:00")) ∧
     odLookup [("timestamp", Value.vStr "2024-01-01 00:00"),
        ("message_type", Value.vStr "INFO"),
        ("service", Value.vStr "auth"),
        ("action", Value.vStr "login"),
        ("user", Value.vStr "bob")] "message_type" = some (Value.vStr "INFO") ∧
     odLookup [("timestamp", Value.vStr "2024-01-01 00:00"),
        ("message_type", Value.vStr "INFO"),
        ("service", Value.vStr "auth"),
        ("action", Value.vStr "login"),
        ("user", Value.vStr "bob")] "service" = some (Value.vStr "auth") ∧
     odLookup [("timestamp", Value.vStr "2024-01-01 00:00"),
        ("message_type", Value.vStr "INFO"),
        ("service", Value.vStr "auth"),
        ("action", Value.vStr "login"),
        ("user", Value.vStr "bob")] "action" = some (Value.vStr "login")) :=
  ⟨(c6_parse_base_fields "").1,
   (c6_parse_base_fields "2024-01-01 00:00 INFO auth login user=bob").2.2
     "2024-01-01" "00:00" "INFO" "auth" "login" "user=bob" []
     [("timestamp", Value.vStr "2024-01-01 00:00"),
      ("message_type", Value.vStr "INFO"),
      ("service", Value.vStr "auth"),
      ("action", Value.vStr "login"),
      ("user", Value.vStr "bob")]
     (by decide) (by decide) (by decide)⟩

/-- C10: every parsed record has duplicate-free field names with the four
base names leading; a tail key equal to a base field name overwrites that
field's value (with the normalized payload value) while the field keeps
its leading position; and re-assigning an existing payload key keeps its
first-seen position and takes the new value. -/
theorem c10_overwrite_semantics :
    (∀ (line : String) (rec : Record), parse_line line = some rec →
      (schema_key rec).Nodup ∧ (schema_key rec).take 4 = BASE_COLUMNS) ∧
    (∀ (line p0 p1 p2 p3 p4 p5 : String) (rest : List String) (rec : Record) (k v : String),
      pySplit line = p0 :: p1 :: p2 :: p3 :: p4 :: p5 :: rest →
      parse_line line = some rec →
      k ∈ BASE_COLUMNS →
      odLookup (scanPayload (p5 :: rest)).payload k = some v →
      odLookup rec k = some (normalize_value v)) ∧
    (∀ (pl : List (String × String)) (k v : String), k ∈ pl.map Prod.fst →
      (odSet pl k v).map Prod.fst = pl.map Prod.fst ∧
      odLookup (odSet pl k v) k = some v) := by
  refine ⟨fun line rec h => ⟨parse_keys_nodup h, ?_⟩, ?_, ?_⟩
  · obtain ⟨extra, he⟩ := parse_keys_base h
    rw [he, show (4 : Nat) = BASE_COLUMNS.length from rfl, List.take_left]
  · intro line p0 p1 p2 p3 p4 p5 rest rec k v hs h hk hv
    rw [parse_line_eq_of_split hs, Option.some.injEq] at h
    subst h
    have hki : k ≠ "issue" ∧ k ≠ "severity" := by
      simp only [BASE_COLUMNS, List.mem_cons, List.mem_singleton] at hk
      rcases hk with rfl | rfl | rfl | rfl | h0
      · exact ⟨by decide, by decide⟩
      · exact ⟨by decide, by decide⟩
      · exact ⟨by decide, by decide⟩
      · exact ⟨by decide, by decide⟩
      · simp at h0
    rw [applySeverity_lookup_ne _ k hki.1 hki.2]
    exact insertPayload_lookup_mem _ _ k v (scanPayload_nodup _)
      (odLookup_some_mem_pair _ k v hv)
  · intro pl k v hk
    exact ⟨odSet_keys_of_mem k v pl hk, odSet_lookup_self k v pl⟩

/-- C10 witness: a line whose tail reassigns service and assigns x twice;
the record's service value is the overwritten one while service keeps its
leading position, and a duplicate-key reassignment keeps first-seen
position with the later value. -/
theorem c10_overwrite_semantics_witness :
    ((schema_key [("timestamp", Value.vStr "2024-01-01 00:00"),
        ("message_type", Value.vStr "T"),
        ("service", Value.vStr "zzz"),
        ("action", Value.vStr "act"),
        ("x", Value.vInt 2)]).Nodup ∧
      (schema_key [("timestamp", Value.vStr "2024-01-01 00:00"),
        ("message_type", Value.vStr "T"),
        ("service", Value.vStr "zzz"),
        ("action", Value.vStr "act"),
        ("x", Value.vInt 2)]).take 4 = BASE_COLUMNS) ∧
    odLookup [("timestamp", Value.vStr "2024-01-01 00:00"),
        ("message_type", Value.vStr "T"),
        ("service", Value.vStr "zzz"),
        ("action", Value.vStr "act"),
        ("x", Value.vInt 2)] "service" = some (normalize_value "zzz") ∧
    ((odSet [("x", "1")] "x" "2").map Prod.fst = [("x", "1")].map Prod.fst ∧
      odLookup (odSet [("x", "1")] "x" "2") "x" = some "2") :=
  ⟨c10_overwrite_semantics.1 "2024-01-01 00:00 T svc act service=zzz x=1 x=2"
     [("timestamp", Value.vStr "2024-01-01 00:00"),
      ("message_type", Value.vStr "T"),
      ("service", Value.vStr "zzz"),
      ("action", Value.vStr "act"),
      ("x", Value.vInt 2)] (by decide),
   c10_overwrite_semantics.2.1 "2024-01-01 00:00 T svc act service=zzz x=1 x=2"
     "2024-01-01" "00:00" "T" "svc" "act" "service=zzz" ["x=1", "x=2"]
     [("timestamp", Value.vStr "2024-01-01 00:00"),
      ("message_type", Value.vStr "T"),
      ("service", Value.vStr "zzz"),
      ("action", Value.vStr "act"),
      ("x", Value.vInt 2)] "service" "zzz"
     (by decide) (by decide) (by decide) (by decide),
   c10_overwrite_semantics.2.2 [("x", "1")] "x" "2" (by decide)⟩


/-- C5: classification partitions the parsed records: group keys are
pairwise distinct, each group is exactly the in-order sublist of parsed
records carrying its key (so arrival order is preserved and nothing is
duplicated), every parsed record lies in the group of its own schema key,
and the group sizes sum to the number of parsed records. -/
theorem c5_classification_partition :
    ∀ lines : List String,
      ((classify (parsedRecords lines)).map Prod.fst).Nodup ∧
      (∀ k g, (k, g) ∈ classify (parsedRecords lines) →
        g = (parsedRecords lines).filter (fun r => decide (schema_key r = k))) ∧
      (∀ r ∈ parsedRecords lines,
        ∃ g, (schema_key r, g) ∈ classify (parsedRecords lines) ∧ r ∈ g) ∧
      ((classify (parsedRecords lines)).map (fun g => g.2.length)).sum =
        (parsedRecords lines).length := by
  intro lines
  refine ⟨classify_keys_nodup _, fun k g hm => ?_, fun r hr => ?_, ?_⟩
  · have hl := grpLookup_of_mem_nodup (classify_keys_nodup _) hm
    rw [classify_lookup] at hl
    split at hl
    · exact absurd hl (by simp)
    · exact (Option.some.injEq _ _ ▸ hl).symm
  · have hfil : r ∈ (parsedRecords lines).filter
        (fun r' => decide (schema_key r' = schema_key r)) :=
      List.mem_filter.mpr ⟨hr, by simp⟩
    have hne : (parsedRecords lines).filter
        (fun r' => decide (schema_key r' = schema_key r)) ≠ [] :=
      List.ne_nil_of_mem hfil
    have hl : grpLookup (classify (parsedRecords lines)) (schema_key r) =
        some ((parsedRecords lines).filter
          (fun r' => decide (schema_key r' = schema_key r))) := by
      rw [classify_lookup, if_neg hne]
    exact ⟨_, grpLookup_some_mem_pair _ _ _ hl, hfil⟩
  · have := classifyFrom_sum (parsedRecords lines) []
    simpa [classify] using this

/-- C5 witness: two lines with the same schema and one with another; the
partition facts instantiated at their concrete groups and records. -/
theorem c5_classification_partition_witness :
    (["timestamp", "message_type", "service", "action", "a"],
      (parsedRecords ["x y T s act a=1", "q r U t act2 b=2 c=3", "z w V u act3 a=9"]).filter
        (fun r => decide (schema_key r =
          ["timestamp", "message_type", "service", "action", "a"]))) ∈
      classify (parsedRecords
        ["x y T s act a=1", "q r U t act2 b=2 c=3", "z w V u act3 a=9"]) ∧
    (∀ k g, (k, g) ∈ classify (parsedRecords
        ["x y T s act a=1", "q r U t act2 b=2 c=3", "z w V u act3 a=9"]) →
      g = (parsedRecords
        ["x y T s act a=1", "q r U t act2 b=2 c=3", "z w V u act3 a=9"]).filter
          (fun r => decide (schema_key r = k))) ∧
    ((classify (parsedRecords
        ["x y T s act a=1", "q r U t act2 b=2 c=3", "z w V u act3 a=9"])).map
      (fun g => g.2.length)).sum = 3 := by
  refine ⟨?_, (c5_classification_partition
    ["x y T s act a=1", "q r U t act2 b=2 c=3", "z w V u act3 a=9"]).2.1, ?_⟩
  · obtain ⟨g, hg, hrg⟩ := (c5_classification_partition
      ["x y T s act a=1", "q r U t act2 b=2 c=3", "z w V u act3 a=9"]).2.2.1
      [("timestamp", Value.vStr "x y"), ("message_type", Value.vStr "T"),
       ("service", Value.vStr "s"), ("action", Value.vStr "act"),
       ("a", Value.vInt 1)] (by decide)
    have hgeq := (c5_classification_partition
      ["x y T s act a=1", "q r U t act2 b=2 c=3", "z w V u act3 a=9"]).2.1 _ _ hg
    rw [hgeq] at hg
    exact hg
  · rw [(c5_classification_partition
      ["x y T s act a=1", "q r U t act2 b=2 c=3", "z w V u act3 a=9"]).2.2.2]
    decide

/-- C4: concatenating the shard files' records in manifest order is a
permutation (multiset equality: every parsed record exactly once) of the
parsed records, and each manifest entry's row_count equals the number of
records written to the shard file it is paired with. -/
theorem c4_shard_round_trip :
    ∀ (lines : List String) (outDir pfx base : String),
      List.Perm (((runPipeline lines outDir pfx base).2.map (fun f => f.2)).join)
        (parsedRecords lines) ∧
      (∀ p ∈ (runPipeline lines outDir pfx base).1.zip
          (runPipeline lines outDir pfx base).2,
        p.1.row_count = p.2.2.length) := by
  intro lines outDir pfx base
  constructor
  · show List.Perm
      (((buildShards pfx outDir base 1 (sortGroups (classify (parsedRecords lines)))).map
        Prod.snd).map (fun f => f.2)).join (parsedRecords lines)
    rw [List.map_map]
    rw [show ((fun f => f.2) ∘ (Prod.snd :
        ManifestEntry × (String × List Record) → String × List Record)) =
      (fun p => p.2.2) from rfl]
    rw [buildShards_files]
    refine List.Perm.trans ?_ (classify_join (parsedRecords lines))
    exact List.Perm.join ((sortGroups_perm _).map Prod.snd)
  · intro p hp
    have : (runPipeline lines outDir pfx base).1.zip (runPipeline lines outDir pfx base).2 =
        (buildShards pfx outDir base 1 (sortGroups (classify (parsedRecords lines)))).map
          (fun a => (a.1, a.2)) := by
      show ((buildShards pfx outDir base 1 (sortGroups (classify (parsedRecords lines)))).map
          Prod.fst).zip
        ((buildShards pfx outDir base 1 (sortGroups (classify (parsedRecords lines)))).map
          Prod.snd) = _
      rw [List.zip_map']
    rw [this] at hp
    obtain ⟨a, ha, rfl⟩ := List.mem_map.mp hp
    obtain ⟨g, _, _, h2, h3⟩ := buildShards_mem pfx outDir base _ 1 a ha
    rw [h3, h2]

/-- C4 witness: the round trip at a concrete two-schema input. -/
theorem c4_shard_round_trip_witness :
    List.Perm (((runPipeline ["x y T s act a=1", "q r U t act2 b=2 c=3"] "/o" "p" "/b").2.map
        (fun f => f.2)).join)
      (parsedRecords ["x y T s act a=1", "q r U t act2 b=2 c=3"]) ∧
    ((runPipeline ["x y T s act a=1", "q r U t act2 b=2 c=3"] "/o" "p" "/b").1.zip
        (runPipeline ["x y T s act a=1", "q r U t act2 b=2 c=3"] "/o" "p" "/b").2).all
      (fun p => p.1.row_count == p.2.2.length) :=
  ⟨(c4_shard_round_trip ["x y T s act a=1", "q r U t act2 b=2 c=3"] "/o" "p" "/b").1,
   List.all_eq_true.mpr (fun p hp => beq_iff_eq.mpr
     ((c4_shard_round_trip ["x y T s act a=1", "q r U t act2 b=2 c=3"] "/o" "p" "/b").2 p hp))⟩


/-- C3 counterexample: with output directory /data/out (not under the
script directory /repo), the manifest filename is the full shard path
/data/out/p_schema_01.jsonl, not the bare "table_name.jsonl" the claim
asserts. -/
theorem c3_counterexample :
    (write_jsonl [(["a"], ([] : List Record))] "/data/out" "p" "/repo").1 =
      [⟨1, "p_schema_01", ["a"], "/data/out/p_schema_01.jsonl", 0⟩] ∧
    "/data/out/p_schema_01.jsonl" ≠ "p_schema_01.jsonl" := by
  refine ⟨by decide, by decide⟩

/-- C3 (amended): for distinct-keyed groups the manifest is emitted in
strictly ascending (field_count, field_name_tuple) order; entry i (0-based)
has schema_id i+1, table_name pfx_schema_NN (NN two-digit zero-padded),
columns the group's field tuple, row_count the group's record count, and
filename the PATH of the shard file: the output directory joined with
"table_name.jsonl", relativized to the script directory when under it. -/
theorem c3_manifest_shape :
    ∀ (gs : List SchemaGroup) (outDir pfx base : String),
      (gs.map Prod.fst).Nodup →
      ((write_jsonl gs outDir pfx base).1.Pairwise
        (fun e₁ e₂ => keyLtB e₁.columns e₂.columns = true)) ∧
      ((write_jsonl gs outDir pfx base).1.map (fun e => e.columns) =
        (sortGroups gs).map Prod.fst) ∧
      (∀ i (h : i < (write_jsonl gs outDir pfx base).1.length)
          (h' : i < (sortGroups gs).length),
        (write_jsonl gs outDir pfx base).1.get ⟨i, h⟩ =
          ⟨i + 1, pfx ++ "_schema_" ++ fmt02 (i + 1), ((sortGroups gs).get ⟨i, h'⟩).1,
            relToBase base (pathJoin outDir ((pfx ++ "_schema_" ++ fmt02 (i + 1)) ++ ".jsonl")),
            ((sortGroups gs).get ⟨i, h'⟩).2.length⟩) := by
  intro gs outDir pfx base hnd
  have hsortnd : ((sortGroups gs).map Prod.fst).Nodup :=
    (((sortGroups_perm gs).map Prod.fst).nodup_iff).mpr hnd
  have hstrict : (sortGroups gs).Pairwise grpLt :=
    sorted_strict_of_nodup (sortGroups_sorted gs) hsortnd
  refine ⟨buildShards_pairwise pfx outDir base _ 1 hstrict, ?_, ?_⟩
  · show ((buildShards pfx outDir base 1 (sortGroups gs)).map Prod.fst).map
        (fun e => e.columns) = (sortGroups gs).map Prod.fst
    rw [List.map_map]
    exact buildShards_columns pfx outDir base 1 (sortGroups gs)
  · intro i h h'
    have hlen : i < (buildShards pfx outDir base 1 (sortGroups gs)).length := by
      rw [buildShards_length]; exact h'
    show ((buildShards pfx outDir base 1 (sortGroups gs)).map Prod.fst).get ⟨i, h⟩ = _
    rw [List.get_map]
    rw [buildShards_get pfx outDir base (sortGroups gs) 1 i h' (by simpa using hlen)]
    rw [show 1 + i = i + 1 from by omega]

/-- C3 witness: two groups of different field counts at a concrete output
directory; the manifest comes out sorted with sequential ids and padded
names. -/
theorem c3_manifest_shape_witness :
    ((write_jsonl [(["a", "b"], ([] : List Record)), (["c"], ([] : List Record))]
        "/data/out" "p" "/repo").1.Pairwise
      (fun e₁ e₂ => keyLtB e₁.columns e₂.columns = true)) ∧
    ((write_jsonl [(["a", "b"], ([] : List Record)), (["c"], ([] : List Record))]
        "/data/out" "p" "/repo").1.map (fun e => e.columns) =
      (sortGroups [(["a", "b"], ([] : List Record)), (["c"], ([] : List Record))]).map
        Prod.fst) :=
  ⟨(c3_manifest_shape [(["a", "b"], ([] : List Record)), (["c"], ([] : List Record))]
      "/data/out" "p" "/repo" (by decide)).1,
   (c3_manifest_shape [(["a", "b"], ([] : List Record)), (["c"], ([] : List Record))]
      "/data/out" "p" "/repo" (by decide)).2.1⟩

/-- C9: the parse, classify and shard-write stages are deterministic --
equal inputs give identical shard record lists and manifest; parsing the
same line twice yields equal records; and the shard/manifest output is
invariant under any reordering of the grouping enumeration, so no
nondeterministic group ordering can leak into the output. -/
theorem c9_pipeline_deterministic :
    (∀ (lines lines' : List String) (outDir pfx base : String), lines = lines' →
      runPipeline lines outDir pfx base = runPipeline lines' outDir pfx base) ∧
    (∀ l, parse_line l = parse_line l) ∧
    (∀ (lines : List String) (gs : List SchemaGroup) (outDir pfx base : String),
      List.Perm gs (classify (parsedRecords lines)) →
      write_jsonl gs outDir pfx base =
        write_jsonl (classify (parsedRecords lines)) outDir pfx base) := by
  refine ⟨fun lines lines' outDir pfx base h => by rw [h], fun l => rfl, ?_⟩
  intro lines gs outDir pfx base hp
  have hnd : (gs.map Prod.fst).Nodup :=
    ((hp.map Prod.fst).nodup_iff).mpr (classify_keys_nodup _)
  unfold write_jsonl
  rw [sortGroups_eq_of_perm hp hnd]

/-- C9 witness: the two-schema input with its grouping enumerated in
reversed order still writes the identical shards and manifest. -/
theorem c9_pipeline_deterministic_witness :
    write_jsonl
        [(["timestamp", "message_type", "service", "action", "b", "c"],
          [[("timestamp", Value.vStr "q r"), ("message_type", Value.vStr "U"),
            ("service", Value.vStr "t"), ("action", Value.vStr "act2"),
            ("b", Value.vInt 2), ("c", Value.vInt 3)]]),
         (["timestamp", "message_type", "service", "action", "a"],
          [[("timestamp", Value.vStr "x y"), ("message_type", Value.vStr "T"),
            ("service", Value.vStr "s"), ("action", Value.vStr "act"),
            ("a", Value.vInt 1)]])] "/o" "p" "/b" =
      write_jsonl (classify (parsedRecords ["x y T s act a=1", "q r U t act2 b=2 c=3"]))
        "/o" "p" "/b" :=
  c9_pipeline_deterministic.2.2 ["x y T s act a=1", "q r U t act2 b=2 c=3"]
    [(["timestamp", "message_type", "service", "action", "b", "c"],
      [[("timestamp", Value.vStr "q r"), ("message_type", Value.vStr "U"),
        ("service", Value.vStr "t"), ("action", Value.vStr "act2"),
        ("b", Value.vInt 2), ("c", Value.vInt 3)]]),
     (["timestamp", "message_type", "service", "action", "a"],
      [[("timestamp", Value.vStr "x y"), ("message_type", Value.vStr "T"),
        ("service", Value.vStr "s"), ("action", Value.vStr "act"),
        ("a", Value.vInt 1)]])] "/o" "p" "/b" (by decide)


/-- C1 counterexample: the local driver's missing-database-file error
propagates out of main, so the remote (MotherDuck) driver is never
attempted, although the flags, token and database name would have let it
run: local and remote sync are not isolated in that direction. -/
theorem c1_counterexample :
    (rebuild_duckdb_tables [⟨1, "t_schema_01", ["a"], "f", 0⟩]
        ⟨some "ops.duckdb", false, false, some "token", "db", false,
         fun _ => false, fun _ => false⟩).2 = some SyncError.dbNotFound ∧
    remoteAttempted (mainSync [⟨1, "t_schema_01", ["a"], "f", 0⟩]
        ⟨some "ops.duckdb", false, false, some "token", "db", false,
         fun _ => false, fun _ => false⟩).1 = false := by
  refine ⟨by decide, by decide⟩

/-- C1 (amended): within each driver an error aborts only that driver's
remaining table loads (tables before the failing one are loaded, in
manifest order); the local trace is a prefix of the run trace, so a remote
failure cannot affect the completed local sync; but any local-driver error
(the missing-database-file error or a per-table load error) aborts the run
before the remote driver is attempted; the remote driver is attempted
exactly when the local driver returns normally. -/
theorem c1_sync_failure_policy :
    ∀ (manifest : List ManifestEntry) (cfg : SyncConfig),
      (∀ (pre : List ManifestEntry) (e : ManifestEntry) (post : List ManifestEntry),
        manifest = pre ++ e :: post →
        cfg.skipDuckdb = false → cfg.duckdbPath ≠ none → cfg.duckdbExists = true →
        (∀ x ∈ pre, cfg.localLoadFails x.table_name = false) →
        cfg.localLoadFails e.table_name = true →
        rebuild_duckdb_tables manifest cfg =
          (SyncEvent.localEntered :: pre.map (fun x => SyncEvent.localLoaded x.table_name),
           some (SyncError.localLoadError e.table_name))) ∧
      ((mainSync manifest cfg).1.take (rebuild_duckdb_tables manifest cfg).1.length =
        (rebuild_duckdb_tables manifest cfg).1) ∧
      (∀ err, (rebuild_duckdb_tables manifest cfg).2 = some err →
        remoteAttempted (mainSync manifest cfg).1 = false ∧
        (mainSync manifest cfg).2 = some err) ∧
      ((rebuild_duckdb_tables manifest cfg).2 = none →
        remoteAttempted (mainSync manifest cfg).1 = true) := by
  intro manifest cfg
  refine ⟨?_, ?_, ?_, ?_⟩
  · intro pre e post hm hskip hpath hex hpre hfail
    subst hm
    rw [show rebuild_duckdb_tables (pre ++ e :: post) cfg =
        (SyncEvent.localEntered :: (loadLoop cfg.localLoadFails SyncEvent.localLoaded
            SyncError.localLoadError (pre ++ e :: post)).1,
         (loadLoop cfg.localLoadFails SyncEvent.localLoaded SyncError.localLoadError
            (pre ++ e :: post)).2) from by
      unfold rebuild_duckdb_tables
      rw [if_neg (by simp [hskip]), if_neg hpath, if_pos hex]]
    rw [loadLoop_first_fail _ _ _ pre e post hpre hfail]
  · rcases hL : (rebuild_duckdb_tables manifest cfg).2 with _ | err
    · rw [mainSync_of_local_ok _ _ hL]
      exact List.take_left _ _
    · rw [mainSync_of_local_err _ _ err hL]
      exact List.take_length _
  · intro err h
    rw [mainSync_of_local_err _ _ err h]
    exact ⟨rebuild_no_remote manifest cfg, rfl⟩
  · intro h
    rw [mainSync_of_local_ok _ _ h]
    obtain ⟨ev, evs, hR, hre⟩ := motherduck_head_remote manifest cfg
    rw [hR]
    simp [remoteAttempted, List.any_append, List.any_cons, hre]

/-- C1 witness: three tables where the second local load fails: the first
table is loaded, the rest of the local loads are aborted, and the remote
driver is not attempted. -/
theorem c1_sync_failure_policy_witness :
    rebuild_duckdb_tables
        [⟨1, "p_schema_01", ["a"], "f1", 0⟩, ⟨2, "p_schema_02", ["b"], "f2", 0⟩,
         ⟨3, "p_schema_03", ["c"], "f3", 0⟩]
        ⟨some "ops.duckdb", true, false, some "token", "db", false,
         fun t => t == "p_schema_02", fun _ => false⟩ =
      (SyncEvent.localEntered ::
        [(⟨1, "p_schema_01", ["a"], "f1", 0⟩ : ManifestEntry)].map
          (fun x => SyncEvent.localLoaded x.table_name),
       some (SyncError.localLoadError "p_schema_02")) ∧
    remoteAttempted (mainSync
        [⟨1, "p_schema_01", ["a"], "f1", 0⟩, ⟨2, "p_schema_02", ["b"], "f2", 0⟩,
         ⟨3, "p_schema_03", ["c"], "f3", 0⟩]
        ⟨some "ops.duckdb", true, false, some "token", "db", false,
         fun t => t == "p_schema_02", fun _ => false⟩).1 = false :=
  ⟨(c1_sync_failure_policy
      [⟨1, "p_schema_01", ["a"], "f1", 0⟩, ⟨2, "p_schema_02", ["b"], "f2", 0⟩,
       ⟨3, "p_schema_03", ["c"], "f3", 0⟩]
      ⟨some "ops.duckdb", true, false, some "token", "db", false,
       fun t => t == "p_schema_02", fun _ => false⟩).1
      [⟨1, "p_schema_01", ["a"], "f1", 0⟩] ⟨2, "p_schema_02", ["b"], "f2", 0⟩
      [⟨3, "p_schema_03", ["c"], "f3", 0⟩]
      rfl rfl (by simp) rfl (by decide) (by decide),
   ((c1_sync_failure_policy
      [⟨1, "p_schema_01", ["a"], "f1", 0⟩, ⟨2, "p_schema_02", ["b"], "f2", 0⟩,
       ⟨3, "p_schema_03", ["c"], "f3", 0⟩]
      ⟨some "ops.duckdb", true, false, some "token", "db", false,
       fun t => t == "p_schema_02", fun _ => false⟩).2.2.1
      (SyncError.localLoadError "p_schema_02") (by decide)).1⟩


/-- C2 witness: a record with an annotated issue field followed by another
field; the rewritten record is the issue-cleaned record with severity
appended at the end. -/
theorem c2_severity_extraction_witness :
    applySeverity [("issue", Value.vStr "full (severity: high)"), ("k", Value.vInt 1)] =
      odSet [("issue", Value.vStr "full (severity: high)"), ("k", Value.vInt 1)]
          "issue" (Value.vStr (cleanIssue "full (severity: high)")) ++
        [("severity", Value.vStr (String.mk (pyStripChars "high".toList)))] :=
  c2_severity_extraction.1
    [("issue", Value.vStr "full (severity: high)"), ("k", Value.vInt 1)]
    "full (severity: high)" "high".toList (by decide) (by decide) (by decide)


end ReloadOps
